import Mathlib

/-! Verification development for the synthnn repository: a shallow embedding of
the Unet builder and forward pass from src/synthnn/models/unet.py, and of the
control flow of main from src/synthnn/exec/fa_train.py.  A tensor is modelled
by its batch size, channel count and list of spatial extents; convolution,
pooling, interpolation and concatenation act on these data exactly as the
corresponding torch operations act on tensor shapes. -/

namespace Synthnn

/-- Error outcomes of the embedded operations.  configError models the
SynthNNError raised for an unrecognized mode or kind string, interpError
models the runtime error raised by F.interpolate on an unsupported
interpolation mode, shapeError models the torch runtime errors raised on
mismatched tensor shapes or too small inputs, and indexError models a Python
list index lookup that is out of range. -/
inductive UErr where
  | configError (msg : String)
  | interpError (mode : String)
  | shapeError
  | indexError
  deriving DecidableEq

/-- The constructor arguments of Unet.__init__ (src/synthnn/models/unet.py,
lines 64 to 66), stored on the instance.  dropout_p and patch_size are stored
by the constructor but play no role in the shape semantics, exactly as in the
source where self.patch_sz is never read again. -/
structure UnetConfig where
  n_layers : Nat
  kernel_size : Nat
  dropout_p : ℚ
  patch_size : Nat
  channel_base_power : Nat
  add_two_up : Bool
  normalization : String
  activation : String
  output_activation : String
  is_3d : Bool
  deconv : Bool
  interp_mode : String
  upsampconv : Bool
  deriving DecidableEq

/-- The layer channel count shortcut lc in Unet.__init__ line 82:
lc n = 2 ** (channel_base_power + n). -/
def lc (cfg : UnetConfig) (n : Nat) : Nat := 2 ^ (cfg.channel_base_power + n)

/-- self.a2u = 2 if add_two_up else 0 (line 74). -/
def UnetConfig.a2u (cfg : UnetConfig) : Nat := if cfg.add_two_up then 2 else 0

/-- Spatial rank of the network: 3 for a 3d unet, 2 for a 2d unet. -/
def convDims (cfg : UnetConfig) : Nat := if cfg.is_3d then 3 else 2

/-- bias = False if self.norm != "none" else True (line 134). -/
def convBias (cfg : UnetConfig) : Bool :=
  if cfg.normalization ≠ "none" then false else true

/-- The recognized activation kind strings.  These are the choices accepted by
the unet docstring and the fa_train command line interface. -/
def actOK (s : String) : Prop :=
  s = "relu" ∨ s = "lrelu" ∨ s = "linear" ∨ s = "sigmoid" ∨ s = "tanh" ∨
  s = "elu" ∨ s = "prelu" ∨ s = "celu" ∨ s = "selu"

/-- The recognized normalization kind strings. -/
def normOK (s : String) : Prop := s = "instance" ∨ s = "batch" ∨ s = "none"

instance (s : String) : Decidable (actOK s) := by
  unfold actOK
  infer_instance

instance (s : String) : Decidable (normOK s) := by
  unfold normOK
  infer_instance

/-- Modelled from the spec: get_act, the name based activation lookup from
the synthnn package root, which is not under src.  Per the spec it maps a
recognized activation kind string to an activation module (shape preserving,
so modelled as Unit) and rejects unrecognized kinds with a configuration
error. -/
def get_act (s : String) : Except UErr Unit :=
  if actOK s then Except.ok () else Except.error (UErr.configError s)

/-- Modelled from the spec: get_norm3d and get_norm2d, the name based
normalization lookups from the synthnn package root, which is not under src.
Per the spec they map a recognized normalization kind to a normalization
module over the given channel count, return no module for the kind none
(the source checks the result against None at line 159), and reject
unrecognized kinds with a configuration error. -/
def get_norm (s : String) (out_c : Nat) : Except UErr (Option Nat) :=
  if s = "instance" ∨ s = "batch" then Except.ok (some out_c)
  else if s = "none" then Except.ok none
  else Except.error (UErr.configError s)

/-- A convolution operation as produced by Unet.__conv: its channel
interface, kernel size, stride, per side padding applied by the preceding
padding module, whether it is a transpose convolution, and whether it carries
a bias term.  dims records the spatial rank expected of its input. -/
structure Conv where
  dims : Nat
  in_c : Nat
  out_c : Nat
  kernel : Nat
  stride : Nat
  pad : Nat
  transpose : Bool
  bias : Bool
  deriving DecidableEq

/-- Unet.__conv (lines 131 to 149).  Plain mode (None) and mode down build a
replication or reflection padding of kernel // 2 followed by a convolution
with stride 1 or 2; mode up builds a transpose convolution with stride 2 and
no padding; any other mode raises SynthNNError. -/
def Unet.conv (cfg : UnetConfig) (in_c out_c : Nat) (kernel_sz : Option Nat)
    (mode : Option String) : Except UErr Conv :=
  let ksz := kernel_sz.getD cfg.kernel_size
  let stride := if mode.isNone then 1 else 2
  if mode = none ∨ mode = some "down" then
    Except.ok ⟨convDims cfg, in_c, out_c, ksz, stride, ksz / 2, false, convBias cfg⟩
  else if mode = some "up" then
    Except.ok ⟨convDims cfg, in_c, out_c, ksz, stride, 0, true, convBias cfg⟩
  else
    Except.error (UErr.configError "mode invalid")

/-- A conv + norm + act + dropout unit as produced by Unet.__conv_act.
Normalization, activation and dropout preserve tensor shape, so only the
convolution is recorded for the shape semantics. -/
structure ConvAct where
  conv : Conv
  deriving DecidableEq

/-- Unet.__conv_act (lines 151 to 170): resolve the kernel size, look up the
activation (defaulting to relu) and the normalization (defaulting to
instance), then build the convolution. -/
def Unet.conv_act (cfg : UnetConfig) (in_c out_c : Nat) (kernel_sz : Option Nat)
    (act norm : Option String) (mode : Option String) : Except UErr ConvAct := do
  let ksz := kernel_sz.getD cfg.kernel_size
  let _ ← get_act (act.getD "relu")
  let _ ← get_norm (norm.getD "instance") out_c
  let c ← Unet.conv cfg in_c out_c (some ksz) mode
  Except.ok ⟨c⟩

/-- A double convolution block as produced by Unet.__dbl_conv_act. -/
structure DblConv where
  ca1 : ConvAct
  ca2 : ConvAct
  deriving DecidableEq

/-- Unet.__dbl_conv_act (lines 172 to 179): chain two conv_act units,
channels in_c to mid_c to out_c, each in plain mode. -/
def Unet.dbl_conv_act (cfg : UnetConfig) (in_c mid_c out_c : Nat)
    (k1 k2 : Option Nat) (a1 a2 n1 n2 : Option String) : Except UErr DblConv := do
  let x ← Unet.conv_act cfg in_c mid_c k1 a1 n1 none
  let y ← Unet.conv_act cfg mid_c out_c k2 a2 n2 none
  Except.ok ⟨x, y⟩

/-- The finishing block as produced by Unet.__final_conv (lines 181 to 184):
a kernel size 1 convolution to a single channel, followed by the output
activation unless that is the string linear. -/
structure FinalConv where
  conv : Conv
  hasAct : Bool
  deriving DecidableEq

/-- Unet.__final_conv.  get_act is consulted only when out_act is not
linear. -/
def Unet.final_conv (cfg : UnetConfig) (in_c : Nat) (out_act : String) :
    Except UErr FinalConv := do
  let c ← Unet.conv cfg in_c 1 (some 1) none
  if out_act ≠ "linear" then do
    let _ ← get_act out_act
    Except.ok ⟨c, true⟩
  else
    Except.ok ⟨c, false⟩

/-- Sequencing of a fallible builder over a list, as a Python list
comprehension raises the first exception encountered. -/
def buildList {α β : Type} (f : α → Except UErr β) : List α → Except UErr (List β)
  | [] => Except.ok []
  | a :: l => do
    let b ← f a
    let bs ← buildList f l
    Except.ok (b :: bs)

/-- The assembled network: the layer collections registered by
Unet.__init__.  upsampconvs is empty when the upsampconv flag is unset, and
downconv and upconv are empty when deconv is unset, mirroring the conditional
attribute creation in the source. -/
structure UnetModel where
  cfg : UnetConfig
  start : DblConv
  down_layers : List DblConv
  bridge : DblConv
  up_layers : List DblConv
  finish : FinalConv
  upsampconvs : List Conv
  downconv : List ConvAct
  upconv : List ConvAct
  deriving DecidableEq

/-- Unet.__init__ (lines 64 to 101).  The Python ranges translate as
range(a, b) = List.range' a (b - a); reversed lists are List.reverse.
Note that interp_mode is stored but never inspected during construction. -/
def Unet.init (cfg : UnetConfig) : Except UErr UnetModel := do
  let start ← Unet.dbl_conv_act cfg 1 (lc cfg 0) (lc cfg 1)
      none none (some cfg.activation) (some cfg.activation) (some cfg.normalization) (some cfg.normalization)
  let down_layers ← buildList (fun n =>
      Unet.dbl_conv_act cfg (lc cfg n) (lc cfg n) (lc cfg (n + 1))
        none none (some cfg.activation) (some cfg.activation) (some cfg.normalization) (some cfg.normalization))
    (List.range' 1 (cfg.n_layers - 1))
  let bridge ← Unet.dbl_conv_act cfg (lc cfg cfg.n_layers) (lc cfg cfg.n_layers)
      (lc cfg (cfg.n_layers + 1)) none none (some cfg.activation) (some cfg.activation) (some cfg.normalization) (some cfg.normalization)
  let up_layers ← buildList (fun n =>
      Unet.dbl_conv_act cfg (lc cfg n + lc cfg (n - 1)) (lc cfg (n - 1)) (lc cfg (n - 1))
        (some (cfg.kernel_size + cfg.a2u)) (some cfg.kernel_size)
        (some cfg.activation) (some cfg.activation) (some cfg.normalization) (some cfg.normalization))
    (List.range' 3 (cfg.n_layers + 2 - 3)).reverse
  let finish ← Unet.final_conv cfg (lc cfg 2 + lc cfg 1) cfg.output_activation
  let upsampconvs ← if cfg.upsampconv then
      buildList (fun n => Unet.conv cfg (lc cfg n) (lc cfg n) (some 3) none)
        (List.range' 2 cfg.n_layers).reverse
    else Except.ok []
  let downconv ← if cfg.deconv then
      buildList (fun n =>
          Unet.conv_act cfg (lc cfg n) (lc cfg n) none (some cfg.activation) (some cfg.normalization) (some "down"))
        (List.range' 1 cfg.n_layers)
    else Except.ok []
  let upconv ← if cfg.deconv then
      buildList (fun n =>
          Unet.conv_act cfg (lc cfg n) (lc cfg n) (some 2) (some cfg.activation) (some cfg.normalization) (some "up"))
        (List.range' 2 cfg.n_layers).reverse
    else Except.ok []
  Except.ok ⟨cfg, start, down_layers, bridge, up_layers, finish, upsampconvs, downconv, upconv⟩

/-- A tensor shape: batch size, channel count and spatial extents. -/
structure Tensor where
  batch : Nat
  channels : Nat
  spatial : List Nat
  deriving DecidableEq

/-- Shape action of a convolution, following the torch output size formulas.
A plain or strided convolution preceded by its padding module maps extent d
to (d + 2 pad - kernel) / stride + 1 and requires kernel <= d + 2 pad with a
nonempty input; in the 2d case the padding module is ReflectionPad2d, which
additionally requires the padding to be strictly smaller than the extent it
pads (ReplicationPad3d in the 3d case has no such constraint).  A transpose
convolution with no padding maps d to (d - 1) stride + kernel and requires a
nonempty input.  The input must have the expected rank and channel count. -/
def Conv.apply (c : Conv) (t : Tensor) : Except UErr Tensor :=
  if t.spatial.length = c.dims ∧ t.channels = c.in_c then
    if c.transpose then
      if ∀ d ∈ t.spatial, 1 ≤ d then
        Except.ok ⟨t.batch, c.out_c, t.spatial.map (fun d => (d - 1) * c.stride + c.kernel)⟩
      else Except.error UErr.shapeError
    else
      if ∀ d ∈ t.spatial, c.kernel ≤ d + 2 * c.pad ∧ 1 ≤ d ∧ (c.dims = 2 → c.pad < d) then
        Except.ok ⟨t.batch, c.out_c,
          t.spatial.map (fun d => (d + 2 * c.pad - c.kernel) / c.stride + 1)⟩
      else Except.error UErr.shapeError
  else Except.error UErr.shapeError

/-- Normalization, activation and dropout preserve shape, so a conv_act unit
acts as its convolution. -/
def ConvAct.apply (ca : ConvAct) (t : Tensor) : Except UErr Tensor := ca.conv.apply t

/-- A double convolution block applies its two units in order. -/
def DblConv.apply (b : DblConv) (t : Tensor) : Except UErr Tensor := do
  let t1 ← b.ca1.apply t
  b.ca2.apply t1

/-- The finishing block acts as its convolution; the optional output
activation preserves shape. -/
def FinalConv.apply (f : FinalConv) (t : Tensor) : Except UErr Tensor := f.conv.apply t

/-- torch.cat along dim 1: requires equal batch and equal spatial shape,
and adds the channel counts. -/
def catChannels (x d : Tensor) : Except UErr Tensor :=
  if x.batch = d.batch ∧ x.spatial = d.spatial then
    Except.ok ⟨x.batch, x.channels + d.channels, x.spatial⟩
  else Except.error UErr.shapeError

/-- F.max_pool3d with window (2,2,2) or F.max_pool2d with window (2,2):
requires the matching rank and every extent at least 2, and halves each
spatial extent (floor). -/
def maxPool (is3d : Bool) (t : Tensor) : Except UErr Tensor :=
  if t.spatial.length = (if is3d then 3 else 2) ∧ ∀ d ∈ t.spatial, 2 ≤ d then
    Except.ok ⟨t.batch, t.channels, t.spatial.map (fun d => d / 2)⟩
  else Except.error UErr.shapeError

/-- F.interpolate with an explicit target size: fails on an interpolation
mode that is unsupported for the rank of its input, otherwise resizes the
spatial extents to exactly the target. -/
def interpolate (mode : String) (sz : List Nat) (t : Tensor) : Except UErr Tensor :=
  if mode = "nearest" ∨ (mode = "bilinear" ∧ t.spatial.length = 2) ∨
      (mode = "trilinear" ∧ t.spatial.length = 3) then
    if sz.length = t.spatial.length ∧ ∀ d ∈ t.spatial, 1 ≤ d then
      Except.ok ⟨t.batch, t.channels, sz⟩
    else Except.error UErr.shapeError
  else Except.error (UErr.interpError mode)

/-- Unet.__down (lines 123 to 125): max pooling when deconv is unset,
otherwise the strided convolution at index i. -/
def UnetModel.down (m : UnetModel) (x : Tensor) (i : Nat) : Except UErr Tensor :=
  if ¬ m.cfg.deconv then maxPool m.cfg.is_3d x
  else match m.downconv[i]? with
    | some ca => ca.apply x
    | none => Except.error UErr.indexError

/-- Unet.__up (lines 119 to 121): interpolation to the recorded size sz when
deconv is unset, otherwise the transpose convolution at index i, which
ignores sz. -/
def UnetModel.up (m : UnetModel) (x : Tensor) (sz : List Nat) (i : Nat) :
    Except UErr Tensor :=
  if ¬ m.cfg.deconv then interpolate m.cfg.interp_mode sz x
  else match m.upconv[i]? with
    | some ca => ca.apply x
    | none => Except.error UErr.indexError

/-- Trace of the operations executed by a forward pass, in order.  opUp
records the target size argument passed to Unet.__up together with the loop
index. -/
inductive TOp where
  | opStart
  | opDown (i : Nat)
  | downBlock (i : Nat)
  | opBridge
  | opUp (target : List Nat) (i : Nat)
  | upBlock (i : Nat)
  | resizeConv (i : Nat)
  | opCat
  | opFinish
  deriving DecidableEq

/-- The contracting loop of Unet.forward (lines 107 to 109): for each
remaining layer, apply the block, record its output in dout, then
downsample. -/
def downLoop (m : UnetModel) : List DblConv → Nat → Tensor → List Tensor → List TOp →
    Except UErr (Tensor × List Tensor × List TOp)
  | [], _, x, dout, tr => Except.ok (x, dout, tr)
  | dl :: rest, i, x, dout, tr => do
    let d ← dl.apply x
    let x2 ← m.down d i
    downLoop m rest (i + 1) x2 (dout ++ [d]) (tr ++ [TOp.downBlock i, TOp.opDown i])

/-- The Python negative index lookup dout[-i-1] on a list of recorded
tensors: valid exactly when i + 1 <= len(dout). -/
def negIndex (dout : List Tensor) (i : Nat) : Except UErr Tensor :=
  if i + 1 ≤ dout.length then
    match dout[dout.length - (i + 1)]? with
    | some t => Except.ok t
    | none => Except.error UErr.indexError
  else Except.error UErr.indexError

/-- The resize convolution lookup and application performed when the
upsampconv option is set. -/
def resizeStep (m : UnetModel) (i : Nat) (z : Tensor) : Except UErr Tensor :=
  if m.cfg.upsampconv then
    match m.upsampconvs[i]? with
    | some cv => cv.apply z
    | none => Except.error UErr.indexError
  else Except.ok z

/-- The expanding loop of Unet.forward (lines 111 to 115): concatenate with
the skip tensor, apply the block, upsample toward the spatial shape of
dout[-i-1], and, when upsampconv is set, apply the resize convolution at
index i. -/
def upLoop (m : UnetModel) (dout : List Tensor) :
    List (DblConv × Tensor) → Nat → Tensor → List TOp →
    Except UErr (Tensor × List TOp)
  | [], _, x, tr => Except.ok (x, tr)
  | (ul, d) :: rest, i, x, tr => do
    let c ← catChannels x d
    let y ← ul.apply c
    let tgtT ← negIndex dout i
    let z ← m.up y tgtT.spatial i
    let w ← resizeStep m i z
    upLoop m dout rest (i + 1) w
      (tr ++ [TOp.opCat, TOp.upBlock i, TOp.opUp tgtT.spatial i] ++
        (if m.cfg.upsampconv then [TOp.resizeConv i] else []))

/-- Unet.forward (lines 103 to 117), instrumented with an operation trace. -/
def UnetModel.forward (m : UnetModel) (x0 : Tensor) :
    Except UErr (Tensor × List TOp) := do
  let s ← m.start.apply x0
  let x1 ← m.down s 0
  let r1 ← downLoop m m.down_layers 1 x1 [s] [TOp.opStart, TOp.opDown 0]
  let x2 := r1.1
  let dout := r1.2.1
  let tr := r1.2.2
  let b ← m.bridge.apply x2
  let last ← match dout.getLast? with
    | some t => Except.ok t
    | none => Except.error UErr.indexError
  let x3 ← m.up b last.spatial 0
  let r2 ← upLoop m dout (m.up_layers.zip dout.reverse) 1 x3
      (tr ++ [TOp.opBridge, TOp.opUp last.spatial 0])
  let x4 := r2.1
  let tr2 := r2.2
  let d0 ← match dout[0]? with
    | some t => Except.ok t
    | none => Except.error UErr.indexError
  let c ← catChannels x4 d0
  let y ← m.finish.apply c
  Except.ok (y, tr2 ++ [TOp.opCat, TOp.opFinish])

/-- The plain convolution produced by Unet.__conv in plain or down mode:
padding of ksz // 2 and the given stride. -/
def mkPlain (cfg : UnetConfig) (in_c out_c ksz stride : Nat) : Conv :=
  ⟨convDims cfg, in_c, out_c, ksz, stride, ksz / 2, false, convBias cfg⟩

/-- The transpose convolution produced by Unet.__conv in up mode. -/
def mkTrans (cfg : UnetConfig) (in_c out_c ksz : Nat) : Conv :=
  ⟨convDims cfg, in_c, out_c, ksz, 2, 0, true, convBias cfg⟩

/-- The double convolution block produced by Unet.__dbl_conv_act on a valid
configuration. -/
def mkDbl (cfg : UnetConfig) (in_c mid_c out_c k1 k2 : Nat) : DblConv :=
  ⟨⟨mkPlain cfg in_c mid_c k1 1⟩, ⟨mkPlain cfg mid_c out_c k2 1⟩⟩

/-- The network Unet.__init__ produces on a valid configuration. -/
def mkModel (cfg : UnetConfig) : UnetModel where
  cfg := cfg
  start := mkDbl cfg 1 (lc cfg 0) (lc cfg 1) cfg.kernel_size cfg.kernel_size
  down_layers := (List.range' 1 (cfg.n_layers - 1)).map (fun n =>
    mkDbl cfg (lc cfg n) (lc cfg n) (lc cfg (n + 1)) cfg.kernel_size cfg.kernel_size)
  bridge := mkDbl cfg (lc cfg cfg.n_layers) (lc cfg cfg.n_layers)
    (lc cfg (cfg.n_layers + 1)) cfg.kernel_size cfg.kernel_size
  up_layers := ((List.range' 3 (cfg.n_layers + 2 - 3)).reverse).map (fun n =>
    mkDbl cfg (lc cfg n + lc cfg (n - 1)) (lc cfg (n - 1)) (lc cfg (n - 1))
      (cfg.kernel_size + cfg.a2u) cfg.kernel_size)
  finish := ⟨mkPlain cfg (lc cfg 2 + lc cfg 1) 1 1 1,
    if cfg.output_activation ≠ "linear" then true else false⟩
  upsampconvs := if cfg.upsampconv then
      ((List.range' 2 cfg.n_layers).reverse).map (fun n =>
        mkPlain cfg (lc cfg n) (lc cfg n) 3 1)
    else []
  downconv := if cfg.deconv then
      (List.range' 1 cfg.n_layers).map (fun n =>
        ⟨mkPlain cfg (lc cfg n) (lc cfg n) cfg.kernel_size 2⟩)
    else []
  upconv := if cfg.deconv then
      ((List.range' 2 cfg.n_layers).reverse).map (fun n =>
        ⟨mkTrans cfg (lc cfg n) (lc cfg n) 2⟩)
    else []

/-- Interpolation mode compatible with the dimensionality, per the unet
docstring for interp_mode. -/
def interpOK (cfg : UnetConfig) : Prop :=
  cfg.interp_mode = "nearest" ∨
  (cfg.interp_mode = "bilinear" ∧ cfg.is_3d = false) ∨
  (cfg.interp_mode = "trilinear" ∧ cfg.is_3d = true)

instance (cfg : UnetConfig) : Decidable (interpOK cfg) := by
  unfold interpOK
  infer_instance

/-- A valid NetworkConfig in the sense of the spec data model: at least one
layer, recognized activation, normalization and output activation kinds, and,
when interpolation is used for upsampling, an interpolation mode matching the
dimensionality.  The spec places no parity constraint on the kernel size. -/
def ValidConfig (cfg : UnetConfig) : Prop :=
  1 ≤ cfg.n_layers ∧ actOK cfg.activation ∧ normOK cfg.normalization ∧
  (cfg.output_activation = "linear" ∨ actOK cfg.output_activation) ∧
  (cfg.deconv = true ∨ interpOK cfg)

instance (cfg : UnetConfig) : Decidable (ValidConfig cfg) := by
  unfold ValidConfig
  infer_instance

/-- The spatial shape after j exact halvings of every extent of S. -/
def shapeAt (S : List Nat) (j : Nat) : List Nat := S.map (fun s => s / 2 ^ j)

/-- The trace chunk of one expanding loop iteration. -/
def upChunk (cfg : UnetConfig) (S : List Nat) (i : Nat) : List TOp :=
  [TOp.opCat, TOp.upBlock i, TOp.opUp (shapeAt S (cfg.n_layers - 1 - i)) i] ++
  (if cfg.upsampconv then [TOp.resizeConv i] else [])

/-- The complete operation trace of a successful forward pass on input
spatial shape S. -/
def fullTrace (cfg : UnetConfig) (S : List Nat) : List TOp :=
  [TOp.opStart, TOp.opDown 0] ++
  (List.flatten ((List.range' 1 (cfg.n_layers - 1)).map
    (fun i => [TOp.downBlock i, TOp.opDown i]))) ++
  [TOp.opBridge, TOp.opUp (shapeAt S (cfg.n_layers - 1)) 0] ++
  (List.flatten ((List.range' 1 (cfg.n_layers - 1)).map (upChunk cfg S))) ++
  [TOp.opCat, TOp.opFinish]

/-- The tensor recorded in dout at index j during a forward pass on a batch
of B inputs with spatial shape S: channels lc (j + 1), spatial shape halved
j times. -/
def doutT (cfg : UnetConfig) (B : Nat) (S : List Nat) (j : Nat) : Tensor :=
  ⟨B, lc cfg (j + 1), shapeAt S j⟩

/-- The contracting double block at depth n, as built in Unet.__init__. -/
def dlAt (cfg : UnetConfig) (n : Nat) : DblConv :=
  mkDbl cfg (lc cfg n) (lc cfg n) (lc cfg (n + 1)) cfg.kernel_size cfg.kernel_size

/-- The expanding double block for the descending index n, as built in
Unet.__init__. -/
def ulAt (cfg : UnetConfig) (n : Nat) : DblConv :=
  mkDbl cfg (lc cfg n + lc cfg (n - 1)) (lc cfg (n - 1)) (lc cfg (n - 1))
    (cfg.kernel_size + cfg.a2u) cfg.kernel_size

/-- The list of pairs processed by the expanding loop when c iterations
remain: the expanding blocks for descending n together with the skip tensors
doutT (n - 2). -/
def upPairs (cfg : UnetConfig) (B : Nat) (S : List Nat) (c : Nat) :
    List (DblConv × Tensor) :=
  ((List.range' 3 c).reverse).map (fun n => (ulAt cfg n, doutT cfg B S (n - 2)))

/-- a is immediately followed by b somewhere in the list. -/
def Adjacent {α : Type} (a b : α) (l : List α) : Prop :=
  ∃ p s, l = p ++ a :: b :: s

/-- Decidable equality for Except values, needed to evaluate the driver
model on concrete data. -/
instance {ε α : Type} [DecidableEq ε] [DecidableEq α] : DecidableEq (Except ε α) :=
  fun a b =>
  match a, b with
  | Except.ok x, Except.ok y => decidable_of_iff (x = y) (by simp)
  | Except.error x, Except.error y => decidable_of_iff (x = y) (by simp)
  | Except.ok _, Except.error _ => isFalse (fun h => Except.noConfusion h)
  | Except.error _, Except.ok _ => isFalse (fun h => Except.noConfusion h)

/-- Outcomes of the external collaborators of main in
src/synthnn/exec/fa_train.py: dataset construction, training, and model and
config saving are performed by fastai and friends, so their outcomes are
oracle data for the control flow model. -/
structure DriverEnv where
  dataOutcome : Except String Unit
  trainOutcome : Except String Unit
  saveOutcome : Except String Unit
  deriving DecidableEq

/-- The body of the try block of main (fa_train.py lines 147 to 244):
construct the network, build the data bunch, train, then save.  The first
exception aborts the rest. -/
def tryBody (cfg : UnetConfig) (env : DriverEnv) : Except String Unit := do
  let _ ← (Unet.init cfg).mapError (fun _ => "network construction failed")
  let _ ← env.dataOutcome
  let _ ← env.trainOutcome
  let _ ← env.saveOutcome
  Except.ok ()

/-- Result of one call of main: its return value (none when an exception
escapes main, which can only happen before the try block), how many times
the try body was entered, and the errors logged by logger.exception. -/
structure MainResult where
  ret : Option Nat
  attempts : Nat
  logged : List String
  deriving DecidableEq

/-- main (fa_train.py lines 130 to 247): argument or config file parsing
happens before the try block, then the body runs inside
try: ... return 0 / except Exception as e: logger.exception(e); return 1. -/
def fa_main (parse : Except String UnetConfig) (env : DriverEnv) : MainResult :=
  match parse with
  | Except.error _ => ⟨none, 0, []⟩
  | Except.ok cfg =>
    match tryBody cfg env with
    | Except.ok _ => ⟨some 0, 1, []⟩
    | Except.error e => ⟨some 1, 1, [e]⟩

/-- A small valid configuration: two layers, kernel 3, channel base power 0,
2d, strided convolution resampling. -/
def cfgA : UnetConfig :=
  ⟨2, 3, 0, 64, 0, false, "instance", "relu", "linear", false, true, "nearest", false⟩

/-- cfgA with an even kernel size (2), still valid per the spec data model. -/
def cfgEvenK : UnetConfig :=
  ⟨2, 2, 0, 64, 0, false, "instance", "relu", "linear", false, true, "nearest", false⟩

/-- A valid configuration using pooling and interpolation resampling. -/
def cfgInterp : UnetConfig :=
  ⟨2, 3, 0, 64, 0, false, "instance", "relu", "linear", false, false, "nearest", false⟩

/-- A configuration whose interpolation mode string is unsupported, with
pooling and interpolation resampling selected. -/
def cfgBadInterp : UnetConfig :=
  ⟨2, 3, 0, 64, 0, false, "instance", "relu", "linear", false, false, "invalid", false⟩

/-- cfgA with the upsampconv option set. -/
def cfgUps : UnetConfig :=
  ⟨2, 3, 0, 64, 0, false, "instance", "relu", "linear", false, true, "nearest", true⟩

/-- cfgA with normalization disabled. -/
def cfgNoNorm : UnetConfig :=
  ⟨2, 3, 0, 64, 0, false, "none", "relu", "linear", false, true, "nearest", false⟩

/-! Basic reduction lemmas for the Except monad and the list builders. -/

theorem except_bind_ok {α β : Type} (a : α) (f : α → Except UErr β) :
    Except.ok a >>= f = f a := rfl

theorem except_bind_error {α β : Type} (e : UErr) (f : α → Except UErr β) :
    (Except.error e : Except UErr α) >>= f = Except.error e := rfl

theorem buildList_ok {α β : Type} (f : α → Except UErr β) (g : α → β) :
    ∀ l : List α, (∀ a ∈ l, f a = Except.ok (g a)) →
      buildList f l = Except.ok (l.map g)
  | [], _ => rfl
  | a :: l, h => by
    unfold buildList
    rw [h a (by simp), except_bind_ok,
      buildList_ok f g l (fun x hx => h x (by simp [hx])), except_bind_ok]
    rfl

theorem map_eq_self_of {S : List Nat} {f : Nat → Nat} (h : ∀ d ∈ S, f d = d) :
    S.map f = S := by
  induction S with
  | nil => rfl
  | cons a l ih =>
    simp only [List.map_cons, h a (by simp)]
    rw [ih (fun d hd => h d (by simp [hd]))]

/-! Values produced by the builders on recognized arguments. -/

theorem get_act_ok {s : String} (h : actOK s) : get_act s = Except.ok () := by
  unfold get_act
  rw [if_pos h]

theorem get_norm_ok {s : String} (o : Nat) (h : normOK s) :
    get_norm s o = Except.ok (if s = "none" then none else some o) := by
  rcases h with h | h | h <;> subst h <;> simp [get_norm]

theorem conv_none (cfg : UnetConfig) (i o k : Nat) :
    Unet.conv cfg i o (some k) none = Except.ok (mkPlain cfg i o k 1) := rfl

theorem conv_mode_down (cfg : UnetConfig) (i o k : Nat) :
    Unet.conv cfg i o (some k) (some "down") = Except.ok (mkPlain cfg i o k 2) := by
  simp [Unet.conv, mkPlain]

theorem conv_mode_up (cfg : UnetConfig) (i o k : Nat) :
    Unet.conv cfg i o (some k) (some "up") = Except.ok (mkTrans cfg i o k) := by
  simp [Unet.conv, mkTrans]

theorem conv_act_plain (cfg : UnetConfig) (i o : Nat) (kopt : Option Nat)
    (a nm : String) (ha : actOK a) (hn : normOK nm) :
    Unet.conv_act cfg i o kopt (some a) (some nm) none =
      Except.ok ⟨mkPlain cfg i o (kopt.getD cfg.kernel_size) 1⟩ := by
  unfold Unet.conv_act
  rw [show (some a).getD "relu" = a from rfl, show (some nm).getD "instance" = nm from rfl,
    get_act_ok ha, except_bind_ok, get_norm_ok o hn, except_bind_ok,
    conv_none, except_bind_ok]

theorem conv_act_down (cfg : UnetConfig) (i o : Nat) (kopt : Option Nat)
    (a nm : String) (ha : actOK a) (hn : normOK nm) :
    Unet.conv_act cfg i o kopt (some a) (some nm) (some "down") =
      Except.ok ⟨mkPlain cfg i o (kopt.getD cfg.kernel_size) 2⟩ := by
  unfold Unet.conv_act
  rw [show (some a).getD "relu" = a from rfl, show (some nm).getD "instance" = nm from rfl,
    get_act_ok ha, except_bind_ok, get_norm_ok o hn, except_bind_ok,
    conv_mode_down, except_bind_ok]

theorem conv_act_up (cfg : UnetConfig) (i o : Nat) (kopt : Option Nat)
    (a nm : String) (ha : actOK a) (hn : normOK nm) :
    Unet.conv_act cfg i o kopt (some a) (some nm) (some "up") =
      Except.ok ⟨mkTrans cfg i o (kopt.getD cfg.kernel_size)⟩ := by
  unfold Unet.conv_act
  rw [show (some a).getD "relu" = a from rfl, show (some nm).getD "instance" = nm from rfl,
    get_act_ok ha, except_bind_ok, get_norm_ok o hn, except_bind_ok,
    conv_mode_up, except_bind_ok]

theorem dbl_ok (cfg : UnetConfig) (i mc o : Nat) (k1 k2 : Option Nat)
    (a nm : String) (ha : actOK a) (hn : normOK nm) :
    Unet.dbl_conv_act cfg i mc o k1 k2 (some a) (some a) (some nm) (some nm) =
      Except.ok (mkDbl cfg i mc o (k1.getD cfg.kernel_size) (k2.getD cfg.kernel_size)) := by
  unfold Unet.dbl_conv_act
  rw [conv_act_plain cfg i mc k1 a nm ha hn, except_bind_ok,
    conv_act_plain cfg mc o k2 a nm ha hn, except_bind_ok]
  rfl

theorem final_conv_ok (cfg : UnetConfig) (i : Nat)
    (ho : cfg.output_activation = "linear" ∨ actOK cfg.output_activation) :
    Unet.final_conv cfg i cfg.output_activation =
      Except.ok ⟨mkPlain cfg i 1 1 1,
        if cfg.output_activation ≠ "linear" then true else false⟩ := by
  unfold Unet.final_conv
  rw [conv_none, except_bind_ok]
  by_cases hlin : cfg.output_activation = "linear"
  · rw [if_neg (by simp [hlin]), if_neg (by simp [hlin])]
  · have hact : actOK cfg.output_activation := by
      rcases ho with h | h
      · exact absurd h hlin
      · exact h
    rw [if_pos hlin, if_pos hlin, get_act_ok hact, except_bind_ok]

/-- Construction succeeds and produces exactly mkModel cfg whenever the
activation, normalization and output activation strings are recognized.
Nothing else is inspected: in particular the interpolation mode string and
the kernel size play no part in construction success. -/
theorem init_ok_of (cfg : UnetConfig) (ha : actOK cfg.activation)
    (hn : normOK cfg.normalization)
    (ho : cfg.output_activation = "linear" ∨ actOK cfg.output_activation) :
    Unet.init cfg = Except.ok (mkModel cfg) := by
  have hstart := dbl_ok cfg 1 (lc cfg 0) (lc cfg 1) none none _ _ ha hn
  have hdown := buildList_ok _
    (fun n => mkDbl cfg (lc cfg n) (lc cfg n) (lc cfg (n + 1))
      cfg.kernel_size cfg.kernel_size)
    (List.range' 1 (cfg.n_layers - 1))
    (fun n _ => by
      have := dbl_ok cfg (lc cfg n) (lc cfg n) (lc cfg (n + 1)) none none _ _ ha hn
      simpa using this)
  have hbridge := dbl_ok cfg (lc cfg cfg.n_layers) (lc cfg cfg.n_layers)
    (lc cfg (cfg.n_layers + 1)) none none _ _ ha hn
  have hup := buildList_ok _
    (fun n => mkDbl cfg (lc cfg n + lc cfg (n - 1)) (lc cfg (n - 1)) (lc cfg (n - 1))
      (cfg.kernel_size + cfg.a2u) cfg.kernel_size)
    (List.range' 3 (cfg.n_layers + 2 - 3)).reverse
    (fun n _ => by
      have := dbl_ok cfg (lc cfg n + lc cfg (n - 1)) (lc cfg (n - 1)) (lc cfg (n - 1))
        (some (cfg.kernel_size + cfg.a2u)) (some cfg.kernel_size) _ _ ha hn
      simpa using this)
  have hfin := final_conv_ok cfg (lc cfg 2 + lc cfg 1) ho
  have husl := buildList_ok _
    (fun n => mkPlain cfg (lc cfg n) (lc cfg n) 3 1)
    (List.range' 2 cfg.n_layers).reverse
    (fun n _ => conv_none cfg (lc cfg n) (lc cfg n) 3)
  have hdcl := buildList_ok _
    (fun n => (⟨mkPlain cfg (lc cfg n) (lc cfg n) cfg.kernel_size 2⟩ : ConvAct))
    (List.range' 1 cfg.n_layers)
    (fun n _ => by
      have := conv_act_down cfg (lc cfg n) (lc cfg n) none _ _ ha hn
      simpa using this)
  have hucl := buildList_ok _
    (fun n => (⟨mkTrans cfg (lc cfg n) (lc cfg n) 2⟩ : ConvAct))
    (List.range' 2 cfg.n_layers).reverse
    (fun n _ => by
      have := conv_act_up cfg (lc cfg n) (lc cfg n) (some 2) _ _ ha hn
      simpa using this)
  cases hu : cfg.upsampconv <;> cases hdc : cfg.deconv <;>
    simp only [Unet.init, mkModel, hstart, hdown, hbridge, hup, hfin, husl, hdcl, hucl,
      hu, hdc, Option.getD_none, Option.getD_some, except_bind_ok, Bool.false_eq_true,
      if_false, if_true, reduceIte]

/-- On a valid configuration, construction succeeds and produces exactly the
model mkModel cfg. -/
theorem init_ok (cfg : UnetConfig) (hv : ValidConfig cfg) :
    Unet.init cfg = Except.ok (mkModel cfg) :=
  init_ok_of cfg hv.2.1 hv.2.2.1 hv.2.2.2.1

/-! Index lookup lemmas for mapped ranges. -/

theorem getElem?_map_range' {β : Type} (f : Nat → β) (s n i : Nat) (h : i < n) :
    ((List.range' s n).map f)[i]? = some (f (s + i)) := by
  rw [List.getElem?_map, List.getElem?_range' _ _ h]
  simp

theorem getElem?_map_rev_range' {β : Type} (f : Nat → β) (s n i : Nat) (h : i < n) :
    (((List.range' s n).reverse).map f)[i]? = some (f (s + n - 1 - i)) := by
  rw [List.reverse_range', List.map_map, List.getElem?_map, List.getElem?_range h]
  rfl

/-! Arithmetic facts about exact halving chains. -/

theorem div_pow_succ_mul_two {s L j : Nat} (hj : j < L) (hdvd : 2 ^ L ∣ s) :
    2 * (s / 2 ^ (j + 1)) = s / 2 ^ j := by
  obtain ⟨q, hq⟩ := (pow_dvd_pow 2 (by omega : j + 1 ≤ L)).trans hdvd
  subst hq
  rw [Nat.mul_div_cancel_left q (pow_pos (by omega) (j + 1)), pow_succ, mul_assoc,
    Nat.mul_div_cancel_left _ (pow_pos (by omega) j)]

theorem div_pow_le_pos {s L : Nat} (j : Nat) (hj : j ≤ L) (hpos : 0 < s)
    (hdvd : 2 ^ L ∣ s) : 0 < s / 2 ^ j :=
  Nat.div_pos (Nat.le_of_dvd hpos ((pow_dvd_pow 2 hj).trans hdvd))
    (pow_pos (by omega) j)

theorem div_pow_two_le {s L : Nat} (j : Nat) (hj : j < L) (hpos : 0 < s)
    (hdvd : 2 ^ L ∣ s) : 2 ≤ s / 2 ^ j := by
  have hle : 2 ^ (j + 1) ≤ s :=
    Nat.le_of_dvd hpos ((pow_dvd_pow 2 (by omega)).trans hdvd)
  calc 2 = 2 ^ (j + 1) / 2 ^ j := by
        rw [pow_succ, Nat.mul_div_cancel_left _ (pow_pos (by omega) j)]
    _ ≤ s / 2 ^ j := Nat.div_le_div_right hle

theorem div_pow_antitone {s j L : Nat} (hj : j ≤ L) : s / 2 ^ L ≤ s / 2 ^ j :=
  Nat.div_le_div_left (Nat.pow_le_pow_right (by omega) hj) (pow_pos (by omega) j)

/-- The kernel margin hypothesis on the input shape implies positivity and
divisibility of every extent. -/
theorem margin_pos {S : List Nat} {L k : Nat}
    (hS : ∀ s ∈ S, 2 ^ L ∣ s ∧ k / 2 < s / 2 ^ L) :
    ∀ s ∈ S, 0 < s ∧ 2 ^ L ∣ s := by
  intro s hs
  obtain ⟨hd, hm⟩ := hS s hs
  refine ⟨?_, hd⟩
  rcases Nat.eq_zero_or_pos s with rfl | h
  · simp at hm
  · exact h

/-! Facts about the halved shapes shapeAt. -/

theorem shapeAt_length (S : List Nat) (j : Nat) : (shapeAt S j).length = S.length := by
  simp [shapeAt]

theorem shapeAt_zero (S : List Nat) : shapeAt S 0 = S := by
  unfold shapeAt
  exact map_eq_self_of (fun d _ => by simp)

theorem shapeAt_pos {S : List Nat} {L : Nat} (j : Nat) (hj : j ≤ L)
    (hS : ∀ s ∈ S, 0 < s ∧ 2 ^ L ∣ s) : ∀ d ∈ shapeAt S j, 1 ≤ d := by
  intro d hd
  obtain ⟨s, hs, rfl⟩ := List.mem_map.1 hd
  exact div_pow_le_pos j hj (hS s hs).1 (hS s hs).2

theorem shapeAt_two_le {S : List Nat} {L : Nat} (j : Nat) (hj : j < L)
    (hS : ∀ s ∈ S, 0 < s ∧ 2 ^ L ∣ s) : ∀ d ∈ shapeAt S j, 2 ≤ d := by
  intro d hd
  obtain ⟨s, hs, rfl⟩ := List.mem_map.1 hd
  exact div_pow_two_le j hj (hS s hs).1 (hS s hs).2

/-- The kernel margin is preserved at every recorded depth: each extent at
depth j still strictly exceeds k / 2. -/
theorem shapeAt_margin {S : List Nat} {L k : Nat} (j : Nat) (hj : j ≤ L)
    (hS : ∀ s ∈ S, 2 ^ L ∣ s ∧ k / 2 < s / 2 ^ L) :
    ∀ d ∈ shapeAt S j, k / 2 < d := by
  intro d hd
  obtain ⟨s, hs, rfl⟩ := List.mem_map.1 hd
  exact lt_of_lt_of_le (hS s hs).2 (div_pow_antitone hj)

/-- Above the deepest level, each extent strictly exceeds even (k + 2) / 2,
covering the widened upsampling kernel. -/
theorem shapeAt_margin_two {S : List Nat} {L k : Nat} (j : Nat) (hj : j < L)
    (hS : ∀ s ∈ S, 2 ^ L ∣ s ∧ k / 2 < s / 2 ^ L) :
    ∀ d ∈ shapeAt S j, (k + 2) / 2 < d := by
  intro d hd
  obtain ⟨s, hs, rfl⟩ := List.mem_map.1 hd
  have h1 : k / 2 < s / 2 ^ (j + 1) :=
    lt_of_lt_of_le (hS s hs).2 (div_pow_antitone (by omega))
  have h2 : 2 * (s / 2 ^ (j + 1)) = s / 2 ^ j :=
    div_pow_succ_mul_two hj (hS s hs).1
  omega

theorem shapeAt_maxpool (S : List Nat) (j : Nat) :
    (shapeAt S j).map (fun d => d / 2) = shapeAt S (j + 1) := by
  unfold shapeAt
  rw [List.map_map]
  apply List.map_congr_left
  intro s _
  show s / 2 ^ j / 2 = s / 2 ^ (j + 1)
  rw [Nat.div_div_eq_div_mul, pow_succ]

theorem shapeAt_downconv {S : List Nat} {L : Nat} (j ksz : Nat) (hk : ksz % 2 = 1)
    (hj : j < L) (hS : ∀ s ∈ S, 0 < s ∧ 2 ^ L ∣ s) :
    (shapeAt S j).map (fun d => (d + 2 * (ksz / 2) - ksz) / 2 + 1) = shapeAt S (j + 1) := by
  rw [← shapeAt_maxpool S j]
  apply List.map_congr_left
  intro d hd
  obtain ⟨s, hs, rfl⟩ := List.mem_map.1 hd
  have heven := div_pow_succ_mul_two hj (hS s hs).2
  have hpos := div_pow_le_pos j (by omega) (hS s hs).1 (hS s hs).2
  omega

theorem shapeAt_upconv {S : List Nat} {L : Nat} (j : Nat) (hj : j < L)
    (hS : ∀ s ∈ S, 0 < s ∧ 2 ^ L ∣ s) :
    (shapeAt S (j + 1)).map (fun d => (d - 1) * 2 + 2) = shapeAt S j := by
  unfold shapeAt
  rw [List.map_map]
  apply List.map_congr_left
  intro s hs
  show (s / 2 ^ (j + 1) - 1) * 2 + 2 = s / 2 ^ j
  have h2 := div_pow_succ_mul_two hj (hS s hs).2
  have hpos := div_pow_le_pos (j + 1) (by omega) (hS s hs).1 (hS s hs).2
  omega

/-! Application lemmas for the block shapes. -/

theorem apply_mkPlain_one (cfg : UnetConfig) (i o ksz : Nat) (hk : ksz % 2 = 1)
    (t : Tensor) (hlen : t.spatial.length = convDims cfg) (hc : t.channels = i)
    (hpad : ∀ d ∈ t.spatial, ksz / 2 < d) :
    (mkPlain cfg i o ksz 1).apply t = Except.ok ⟨t.batch, o, t.spatial⟩ := by
  unfold Conv.apply
  rw [if_pos (show t.spatial.length = (mkPlain cfg i o ksz 1).dims ∧
      t.channels = (mkPlain cfg i o ksz 1).in_c from ⟨hlen, hc⟩)]
  rw [if_neg (show ¬ ((mkPlain cfg i o ksz 1).transpose = true) from by
    simp [mkPlain])]
  rw [if_pos (show ∀ d ∈ t.spatial,
      (mkPlain cfg i o ksz 1).kernel ≤ d + 2 * (mkPlain cfg i o ksz 1).pad ∧ 1 ≤ d ∧
        ((mkPlain cfg i o ksz 1).dims = 2 → (mkPlain cfg i o ksz 1).pad < d) from by
    intro d hd
    have h1 := hpad d hd
    refine ⟨?_, by omega, fun _ => h1⟩
    show ksz ≤ d + 2 * (ksz / 2)
    omega)]
  simp only [Except.ok.injEq, Tensor.mk.injEq, true_and]
  refine ⟨rfl, ?_⟩
  exact map_eq_self_of (fun d hd => by
    have := hpad d hd
    show (d + 2 * (ksz / 2) - ksz) / 1 + 1 = d
    omega)

theorem apply_mkPlain_two (cfg : UnetConfig) (i o ksz : Nat) (hk : ksz % 2 = 1)
    (t : Tensor) (hlen : t.spatial.length = convDims cfg) (hc : t.channels = i)
    (hpad : ∀ d ∈ t.spatial, ksz / 2 < d) :
    (mkPlain cfg i o ksz 2).apply t =
      Except.ok ⟨t.batch, o, t.spatial.map (fun d => (d + 2 * (ksz / 2) - ksz) / 2 + 1)⟩ := by
  unfold Conv.apply
  rw [if_pos (show t.spatial.length = (mkPlain cfg i o ksz 2).dims ∧
      t.channels = (mkPlain cfg i o ksz 2).in_c from ⟨hlen, hc⟩)]
  rw [if_neg (show ¬ ((mkPlain cfg i o ksz 2).transpose = true) from by
    simp [mkPlain])]
  rw [if_pos (show ∀ d ∈ t.spatial,
      (mkPlain cfg i o ksz 2).kernel ≤ d + 2 * (mkPlain cfg i o ksz 2).pad ∧ 1 ≤ d ∧
        ((mkPlain cfg i o ksz 2).dims = 2 → (mkPlain cfg i o ksz 2).pad < d) from by
    intro d hd
    have h1 := hpad d hd
    refine ⟨?_, by omega, fun _ => h1⟩
    show ksz ≤ d + 2 * (ksz / 2)
    omega)]
  rfl

theorem apply_mkTrans_two (cfg : UnetConfig) (i o : Nat)
    (t : Tensor) (hlen : t.spatial.length = convDims cfg) (hc : t.channels = i)
    (hpos : ∀ d ∈ t.spatial, 1 ≤ d) :
    (mkTrans cfg i o 2).apply t =
      Except.ok ⟨t.batch, o, t.spatial.map (fun d => (d - 1) * 2 + 2)⟩ := by
  unfold Conv.apply
  rw [if_pos (show t.spatial.length = (mkTrans cfg i o 2).dims ∧
      t.channels = (mkTrans cfg i o 2).in_c from ⟨hlen, hc⟩)]
  rw [if_pos (show (mkTrans cfg i o 2).transpose = true from rfl)]
  rw [if_pos hpos]
  rfl

theorem apply_mkDbl (cfg : UnetConfig) (i mc o k1 k2 : Nat)
    (hk1 : k1 % 2 = 1) (hk2 : k2 % 2 = 1) (t : Tensor)
    (hlen : t.spatial.length = convDims cfg) (hc : t.channels = i)
    (hpad1 : ∀ d ∈ t.spatial, k1 / 2 < d) (hpad2 : ∀ d ∈ t.spatial, k2 / 2 < d) :
    (mkDbl cfg i mc o k1 k2).apply t = Except.ok ⟨t.batch, o, t.spatial⟩ := by
  unfold DblConv.apply mkDbl ConvAct.apply
  rw [apply_mkPlain_one cfg i mc k1 hk1 t hlen hc hpad1, except_bind_ok]
  exact apply_mkPlain_one cfg mc o k2 hk2 ⟨t.batch, mc, t.spatial⟩ hlen rfl hpad2

theorem maxPool_shape (is3d : Bool) (t : Tensor)
    (hlen : t.spatial.length = (if is3d then 3 else 2))
    (h2 : ∀ d ∈ t.spatial, 2 ≤ d) :
    maxPool is3d t = Except.ok ⟨t.batch, t.channels, t.spatial.map (fun d => d / 2)⟩ := by
  unfold maxPool
  rw [if_pos ⟨hlen, h2⟩]

theorem interpolate_shape (cfg : UnetConfig) (hok : interpOK cfg) (sz : List Nat)
    (t : Tensor) (hlen : t.spatial.length = convDims cfg) (hsz : sz.length = t.spatial.length)
    (hpos : ∀ d ∈ t.spatial, 1 ≤ d) :
    interpolate cfg.interp_mode sz t = Except.ok ⟨t.batch, t.channels, sz⟩ := by
  unfold interpolate
  rw [if_pos ?hmode]
  case hmode =>
    rcases hok with h | ⟨h, h3⟩ | ⟨h, h3⟩
    · exact Or.inl h
    · refine Or.inr (Or.inl ⟨h, ?_⟩)
      rw [hlen]
      simp [convDims, h3]
    · refine Or.inr (Or.inr ⟨h, ?_⟩)
      rw [hlen]
      simp [convDims, h3]
  rw [if_pos ⟨hsz, hpos⟩]

/-- C4: for every valid configuration with n_layers at least 2, construction
succeeds and the model owns exactly n_layers - 1 contracting double blocks
and exactly n_layers - 1 expanding double blocks, so the two counts are
equal. -/
theorem C4_layer_counts (cfg : UnetConfig) (hv : ValidConfig cfg)
    (h2 : 2 ≤ cfg.n_layers) :
    Unet.init cfg = Except.ok (mkModel cfg) ∧
    (mkModel cfg).down_layers.length = cfg.n_layers - 1 ∧
    (mkModel cfg).up_layers.length = cfg.n_layers - 1 ∧
    (mkModel cfg).down_layers.length = (mkModel cfg).up_layers.length := by
  refine ⟨init_ok cfg hv, ?_, ?_, ?_⟩ <;>
    · simp only [mkModel, List.length_map, List.length_reverse, List.length_range']
      try omega

/-- C4 witness at a concrete configuration. -/
theorem C4_layer_counts_witness :
    Unet.init cfgA = Except.ok (mkModel cfgA) ∧
    (mkModel cfgA).down_layers.length = cfgA.n_layers - 1 ∧
    (mkModel cfgA).up_layers.length = cfgA.n_layers - 1 ∧
    (mkModel cfgA).down_layers.length = (mkModel cfgA).up_layers.length :=
  C4_layer_counts cfgA (by decide) (by decide)

/-- C5: for every valid configuration, the contracting block at depth j + 1
(the entry at index j of down_layers) works at 2 ^ (channel_base_power + (j + 1))
channels on its first unit and expands to the next power on its second unit,
and the channel schedule lc is strictly increasing in the depth. -/
theorem C5_channel_schedule (cfg : UnetConfig) (hv : ValidConfig cfg) :
    Unet.init cfg = Except.ok (mkModel cfg) ∧
    (∀ j, j < cfg.n_layers - 1 →
      ∃ dl, (mkModel cfg).down_layers[j]? = some dl ∧
        dl.ca1.conv.in_c = 2 ^ (cfg.channel_base_power + (j + 1)) ∧
        dl.ca1.conv.out_c = 2 ^ (cfg.channel_base_power + (j + 1)) ∧
        dl.ca2.conv.out_c = 2 ^ (cfg.channel_base_power + (j + 1) + 1)) ∧
    StrictMono (lc cfg) := by
  refine ⟨init_ok cfg hv, ?_, ?_⟩
  · intro j hj
    refine ⟨mkDbl cfg (lc cfg (1 + j)) (lc cfg (1 + j)) (lc cfg (1 + j + 1))
        cfg.kernel_size cfg.kernel_size, ?_, ?_, ?_, ?_⟩
    · unfold mkModel
      exact getElem?_map_range' _ 1 (cfg.n_layers - 1) j hj
    · show lc cfg (1 + j) = 2 ^ (cfg.channel_base_power + (j + 1))
      unfold lc
      congr 1
      omega
    · show lc cfg (1 + j) = 2 ^ (cfg.channel_base_power + (j + 1))
      unfold lc
      congr 1
      omega
    · show lc cfg (1 + j + 1) = 2 ^ (cfg.channel_base_power + (j + 1) + 1)
      unfold lc
      congr 1
      omega
  · intro a b hab
    unfold lc
    exact Nat.pow_lt_pow_right (by omega) (by omega)

/-- C5 witness at a concrete configuration. -/
theorem C5_channel_schedule_witness :
    Unet.init cfgA = Except.ok (mkModel cfgA) ∧
    (∀ j, j < cfgA.n_layers - 1 →
      ∃ dl, (mkModel cfgA).down_layers[j]? = some dl ∧
        dl.ca1.conv.in_c = 2 ^ (cfgA.channel_base_power + (j + 1)) ∧
        dl.ca1.conv.out_c = 2 ^ (cfgA.channel_base_power + (j + 1)) ∧
        dl.ca2.conv.out_c = 2 ^ (cfgA.channel_base_power + (j + 1) + 1)) ∧
    StrictMono (lc cfgA) :=
  C5_channel_schedule cfgA (by decide)

/-- C7: a convolution built by Unet.__conv carries a bias term exactly when
the configured normalization kind is the string none. -/
theorem C7_bias_iff_no_normalization (cfg : UnetConfig) (in_c out_c : Nat)
    (kernel_sz : Option Nat) (mode : Option String) (c : Conv)
    (h : Unet.conv cfg in_c out_c kernel_sz mode = Except.ok c) :
    c.bias = true ↔ cfg.normalization = "none" := by
  have hb : c.bias = convBias cfg := by
    simp only [Unet.conv] at h
    split at h
    · cases h
      rfl
    · split at h
      · cases h
        rfl
      · cases h
  rw [hb]
  unfold convBias
  by_cases hn : cfg.normalization = "none" <;> simp [hn]

/-- C7 witness: with instance normalization the produced convolution has no
bias, with normalization none it has one. -/
theorem C7_bias_iff_no_normalization_witness :
    ((mkPlain cfgA 1 1 3 1).bias = true ↔ cfgA.normalization = "none") ∧
    ((mkPlain cfgNoNorm 1 1 3 1).bias = true ↔ cfgNoNorm.normalization = "none") :=
  ⟨C7_bias_iff_no_normalization cfgA 1 1 (some 3) none _ (by decide),
   C7_bias_iff_no_normalization cfgNoNorm 1 1 (some 3) none _ (by decide)⟩

/-- C8: Unet.__conv succeeds exactly on the recognized modes (None, down,
up) and raises SynthNNError exactly on every other mode value. -/
theorem C8_conv_mode_errors (cfg : UnetConfig) (in_c out_c : Nat)
    (kernel_sz : Option Nat) (mode : Option String) :
    ((∃ c, Unet.conv cfg in_c out_c kernel_sz mode = Except.ok c) ↔
      (mode = none ∨ mode = some "down" ∨ mode = some "up")) ∧
    ((∃ e, Unet.conv cfg in_c out_c kernel_sz mode = Except.error e) ↔
      ¬ (mode = none ∨ mode = some "down" ∨ mode = some "up")) := by
  unfold Unet.conv
  by_cases h1 : mode = none ∨ mode = some "down"
  · rw [if_pos h1]
    constructor
    · simp only [Except.ok.injEq, exists_eq']
      tauto
    · constructor
      · rintro ⟨e, he⟩
        cases he
      · intro h
        exact absurd (by tauto) h
  · rw [if_neg h1]
    by_cases h2 : mode = some "up"
    · rw [if_pos h2]
      constructor
      · simp only [Except.ok.injEq, exists_eq']
        tauto
      · constructor
        · rintro ⟨e, he⟩
          cases he
        · intro h
          exact absurd (by tauto) h
    · rw [if_neg h2]
      constructor
      · constructor
        · rintro ⟨c, hc⟩
          cases hc
        · intro h
          exact absurd h (by tauto)
      · constructor
        · intro _
          tauto
        · intro _
          exact ⟨_, rfl⟩

/-- C8 witness: an unrecognized mode yields an error, mode up yields a
convolution. -/
theorem C8_conv_mode_errors_witness :
    (∃ e, Unet.conv cfgA 2 4 (some 3) (some "sideways") = Except.error e) ∧
    (∃ c, Unet.conv cfgA 2 4 (some 3) (some "up") = Except.ok c) :=
  ⟨(C8_conv_mode_errors cfgA 2 4 (some 3) (some "sideways")).2.mpr (by decide),
   (C8_conv_mode_errors cfgA 2 4 (some 3) (some "up")).1.mpr (by decide)⟩

/-- C9: once the configuration has been parsed, main returns 0 exactly when
the try body succeeds; on any failure inside the try body it returns 1 and
logs the error; the body is never entered twice (no retry). -/
theorem C9_driver_exit_codes (parse : Except String UnetConfig) (env : DriverEnv)
    (cfg : UnetConfig) (hp : parse = Except.ok cfg) :
    ((fa_main parse env).ret = some 0 ↔ tryBody cfg env = Except.ok ()) ∧
    (∀ e, tryBody cfg env = Except.error e →
      (fa_main parse env).ret = some 1 ∧ e ∈ (fa_main parse env).logged) ∧
    (fa_main parse env).attempts ≤ 1 := by
  subst hp
  unfold fa_main
  cases htb : tryBody cfg env with
  | ok u =>
    cases u
    simp [htb]
  | error e =>
    simp [htb]

/-- C9 witness: a concrete successful run and a concrete failing run. -/
theorem C9_driver_exit_codes_witness :
    ((fa_main (Except.ok cfgA) ⟨Except.ok (), Except.ok (), Except.ok ()⟩).ret = some 0 ↔
      tryBody cfgA ⟨Except.ok (), Except.ok (), Except.ok ()⟩ = Except.ok ()) ∧
    (∀ e, tryBody cfgA ⟨Except.ok (), Except.ok (), Except.ok ()⟩ = Except.error e →
      (fa_main (Except.ok cfgA) ⟨Except.ok (), Except.ok (), Except.ok ()⟩).ret = some 1 ∧
      e ∈ (fa_main (Except.ok cfgA) ⟨Except.ok (), Except.ok (), Except.ok ()⟩).logged) ∧
    (fa_main (Except.ok cfgA) ⟨Except.ok (), Except.ok (), Except.ok ()⟩).attempts ≤ 1 :=
  C9_driver_exit_codes (Except.ok cfgA) ⟨Except.ok (), Except.ok (), Except.ok ()⟩ cfgA rfl

/-- C1 counterexample: two valid NetworkConfig instances (the spec places no
parity or size-margin constraint beyond divisibility) on the input [4, 4],
divisible by 2 ^ n_layers in every dimension, where the forward pass fails
with a shape error instead of returning a [1, 1, 4, 4] tensor.  With kernel
size 2 the padded convolutions grow each extent, so the tensors reaching the
first skip concatenation disagree; with kernel size 3 the contracting path
reaches extent 1 before the bridge, whose ReflectionPad2d of size 1 then
rejects the extent-1 input. -/
theorem C1_counterexample_as_stated :
    (ValidConfig cfgEvenK ∧
     ([4, 4] : List Nat).length = convDims cfgEvenK ∧
     (∀ s ∈ ([4, 4] : List Nat), 0 < s ∧ 2 ^ cfgEvenK.n_layers ∣ s) ∧
     Unet.init cfgEvenK = Except.ok (mkModel cfgEvenK) ∧
     (mkModel cfgEvenK).forward ⟨1, 1, [4, 4]⟩ = Except.error UErr.shapeError) ∧
    (ValidConfig cfgA ∧
     ([4, 4] : List Nat).length = convDims cfgA ∧
     (∀ s ∈ ([4, 4] : List Nat), 0 < s ∧ 2 ^ cfgA.n_layers ∣ s) ∧
     Unet.init cfgA = Except.ok (mkModel cfgA) ∧
     (mkModel cfgA).forward ⟨1, 1, [4, 4]⟩ = Except.error UErr.shapeError) := by
  decide

/-- C2 counterexample: in a successful forward pass of a valid configuration
on the input [8, 8] the operation trace does contain an upsampling step whose
target is exactly the spatial shape of d[0] (here [8, 8], the shape recorded
by the start block), performed inside the last expanding iteration before the
finishing block, contradicting the claim that no such upsampling step is
performed. -/
theorem C2_counterexample_upsample_to_input_shape :
    Unet.init cfgInterp = Except.ok (mkModel cfgInterp) ∧
    (mkModel cfgInterp).forward ⟨1, 1, [8, 8]⟩ =
      Except.ok (⟨1, 1, [8, 8]⟩, fullTrace cfgInterp [8, 8]) ∧
    TOp.opUp [8, 8] 1 ∈ fullTrace cfgInterp [8, 8] ∧
    (fullTrace cfgInterp [8, 8]).getLast? = some TOp.opFinish := by
  decide

/-- C3 counterexample: a configuration whose interpolation mode string is
unsupported constructs successfully (no ConfigError at construction time);
on the input [8, 8], where every padded convolution fits, the error surfaces
at the first upsampling step of the forward pass. -/
theorem C3_counterexample_interp_mode_not_checked :
    Unet.init cfgBadInterp = Except.ok (mkModel cfgBadInterp) ∧
    (mkModel cfgBadInterp).forward ⟨1, 1, [8, 8]⟩ =
      Except.error (UErr.interpError "invalid") := by
  decide

/-- C6 counterexample: with the upsampconv option set, the first upsampling
step (out of the bridge, loop index 0) appears in the trace of a successful
forward pass on [8, 8] but is never followed by a resize convolution: no
resizeConv 0 operation occurs at all, although the model owns n_layers
resize convolutions (entry 0 is never applied). -/
theorem C6_counterexample_first_upsample_no_resizeconv :
    cfgUps.upsampconv = true ∧
    Unet.init cfgUps = Except.ok (mkModel cfgUps) ∧
    (mkModel cfgUps).forward ⟨1, 1, [8, 8]⟩ =
      Except.ok (⟨1, 1, [8, 8]⟩, fullTrace cfgUps [8, 8]) ∧
    TOp.opUp [4, 4] 0 ∈ fullTrace cfgUps [8, 8] ∧
    TOp.resizeConv 0 ∉ fullTrace cfgUps [8, 8] ∧
    (mkModel cfgUps).upsampconvs.length = cfgUps.n_layers := by
  decide

/-- C10 counterexample: under the strided convolution strategy with an even
kernel size (valid per the spec data model), an input whose spatial extents
are all divisible by 2 ^ n_layers still reaches a skip concatenation with
unequal spatial shapes, so the concatenation failure branch is reached. -/
theorem C10_counterexample_even_kernel_cat :
    cfgEvenK.deconv = true ∧
    (∀ s ∈ ([8, 8] : List Nat), 0 < s ∧ 2 ^ cfgEvenK.n_layers ∣ s) ∧
    (mkModel cfgEvenK).forward ⟨1, 1, [8, 8]⟩ = Except.error UErr.shapeError := by
  decide

theorem getElem?_map_range {β : Type} (f : Nat → β) (n i : Nat) (h : i < n) :
    ((List.range n).map f)[i]? = some (f i) := by
  rw [List.getElem?_map, List.getElem?_range h]
  rfl

theorem ka2u_odd (cfg : UnetConfig) (hk : cfg.kernel_size % 2 = 1) :
    (cfg.kernel_size + cfg.a2u) % 2 = 1 := by
  unfold UnetConfig.a2u
  split <;> omega

theorem a2u_le_two (cfg : UnetConfig) : cfg.a2u ≤ 2 := by
  unfold UnetConfig.a2u
  split <;> omega

theorem margin_base {S : List Nat} {L k : Nat}
    (hS : ∀ s ∈ S, 2 ^ L ∣ s ∧ k / 2 < s / 2 ^ L) : ∀ d ∈ S, k / 2 < d := by
  intro d hd
  have h := lt_of_lt_of_le (hS d hd).2 (div_pow_antitone (Nat.zero_le L))
  simpa using h

/-- One downsampling step of the forward pass: at index j with the tensor
recorded at depth j, both strategies halve every spatial extent exactly. -/
theorem down_step (cfg : UnetConfig) (B : Nat) (S : List Nat)
    (hk : cfg.kernel_size % 2 = 1) (hlen : S.length = convDims cfg)
    (hS : ∀ s ∈ S, 2 ^ cfg.n_layers ∣ s ∧ cfg.kernel_size / 2 < s / 2 ^ cfg.n_layers)
    (j : Nat) (hj : j < cfg.n_layers)
    (C : Nat) (hC : C = lc cfg (j + 1)) :
    (mkModel cfg).down ⟨B, C, shapeAt S j⟩ j = Except.ok ⟨B, C, shapeAt S (j + 1)⟩ := by
  have hS0 := margin_pos hS
  unfold UnetModel.down
  cases hdc : cfg.deconv with
  | false =>
    rw [if_pos (by simp [mkModel, hdc])]
    have hrank : (shapeAt S j).length = (if (mkModel cfg).cfg.is_3d then 3 else 2) := by
      rw [shapeAt_length, hlen]
      rfl
    rw [maxPool_shape _ _ hrank (shapeAt_two_le j hj hS0)]
    rw [shapeAt_maxpool]
  | true =>
    rw [if_neg (by simp [mkModel, hdc])]
    have hidx : (mkModel cfg).downconv[j]? =
        some ⟨mkPlain cfg (lc cfg (1 + j)) (lc cfg (1 + j)) cfg.kernel_size 2⟩ := by
      show (if cfg.deconv then _ else _)[j]? = _
      rw [if_pos hdc]
      exact getElem?_map_range' _ 1 cfg.n_layers j hj
    rw [hidx]
    have h1j : 1 + j = j + 1 := by omega
    rw [h1j] at hidx ⊢
    show (mkPlain cfg (lc cfg (j + 1)) (lc cfg (j + 1)) cfg.kernel_size 2).apply _ = _
    rw [apply_mkPlain_two cfg (lc cfg (j + 1)) (lc cfg (j + 1)) cfg.kernel_size hk
      ⟨B, C, shapeAt S j⟩ (by rw [shapeAt_length, hlen]) hC
      (shapeAt_margin j (by omega) hS)]
    rw [shapeAt_downconv j cfg.kernel_size hk hj hS0]
    rw [hC]

/-- One upsampling step of the forward pass: at loop index
n_layers - 1 - j with a tensor at depth j + 1, both strategies produce
exactly the shape at depth j (interpolation by construction, the transpose
convolution because it doubles each extent exactly). -/
theorem up_step (cfg : UnetConfig) (B : Nat) (S : List Nat)
    (hlen : S.length = convDims cfg)
    (hS0 : ∀ s ∈ S, 0 < s ∧ 2 ^ cfg.n_layers ∣ s)
    (hd : cfg.deconv = true ∨ interpOK cfg) (j : Nat) (hj : j < cfg.n_layers)
    (C : Nat) (hC : C = lc cfg (j + 2)) (tgt : List Nat) (htgt : tgt = shapeAt S j) :
    (mkModel cfg).up ⟨B, C, shapeAt S (j + 1)⟩ tgt (cfg.n_layers - 1 - j) =
      Except.ok ⟨B, C, shapeAt S j⟩ := by
  unfold UnetModel.up
  cases hdc : cfg.deconv with
  | false =>
    rw [if_pos (by simp [mkModel, hdc])]
    have hok : interpOK cfg := by
      rcases hd with h | h
      · rw [hdc] at h
        cases h
      · exact h
    show interpolate cfg.interp_mode tgt _ = _
    rw [interpolate_shape cfg hok tgt ⟨B, C, shapeAt S (j + 1)⟩
      (by rw [shapeAt_length, hlen])
      (by rw [htgt, shapeAt_length, shapeAt_length])
      (shapeAt_pos (j + 1) (by omega) hS0)]
    rw [htgt]
  | true =>
    rw [if_neg (by simp [mkModel, hdc])]
    have hiL : cfg.n_layers - 1 - j < cfg.n_layers := by omega
    have hval : 2 + cfg.n_layers - 1 - (cfg.n_layers - 1 - j) = j + 2 := by omega
    have hidx : (mkModel cfg).upconv[cfg.n_layers - 1 - j]? =
        some ⟨mkTrans cfg (lc cfg (j + 2)) (lc cfg (j + 2)) 2⟩ := by
      show (if cfg.deconv then _ else _)[cfg.n_layers - 1 - j]? = _
      rw [if_pos hdc]
      rw [getElem?_map_rev_range' _ 2 cfg.n_layers _ hiL]
      rw [hval]
    rw [hidx]
    show (mkTrans cfg (lc cfg (j + 2)) (lc cfg (j + 2)) 2).apply _ = _
    rw [apply_mkTrans_two cfg (lc cfg (j + 2)) (lc cfg (j + 2))
      ⟨B, C, shapeAt S (j + 1)⟩ (by rw [shapeAt_length, hlen]) hC
      (shapeAt_pos (j + 1) (by omega) hS0)]
    rw [shapeAt_upconv j hj hS0]
    rw [hC]

/-- The contracting loop invariant: starting at depth i with the remaining
blocks for depths i .. n_layers - 1, the loop returns the bridge input at
depth n_layers together with the complete list of recorded activations and
the corresponding trace chunk. -/
theorem downLoop_spec (cfg : UnetConfig) (B : Nat) (S : List Nat)
    (hk : cfg.kernel_size % 2 = 1) (hlen : S.length = convDims cfg)
    (hS : ∀ s ∈ S, 2 ^ cfg.n_layers ∣ s ∧ cfg.kernel_size / 2 < s / 2 ^ cfg.n_layers) :
    ∀ (c i : Nat), 1 ≤ i → i + c = cfg.n_layers → ∀ tr : List TOp,
      downLoop (mkModel cfg) ((List.range' i c).map (dlAt cfg)) i
        ⟨B, lc cfg i, shapeAt S i⟩ ((List.range i).map (doutT cfg B S)) tr =
      Except.ok (⟨B, lc cfg (i + c), shapeAt S (i + c)⟩,
        (List.range (i + c)).map (doutT cfg B S),
        tr ++ List.flatten ((List.range' i c).map
          (fun n => [TOp.downBlock n, TOp.opDown n]))) := by
  intro c
  induction c with
  | zero =>
    intro i h1 hic tr
    simp [downLoop]
  | succ c ih =>
    intro i h1 hic tr
    have hblock : (dlAt cfg i).apply ⟨B, lc cfg i, shapeAt S i⟩ =
        Except.ok ⟨B, lc cfg (i + 1), shapeAt S i⟩ := by
      unfold dlAt
      exact apply_mkDbl cfg (lc cfg i) (lc cfg i) (lc cfg (i + 1)) _ _ hk hk _
        (by rw [shapeAt_length, hlen]) rfl (shapeAt_margin i (by omega) hS)
        (shapeAt_margin i (by omega) hS)
    have hdown := down_step cfg B S hk hlen hS i (by omega) (lc cfg (i + 1)) rfl
    rw [List.range'_succ, List.map_cons]
    simp only [downLoop, hblock, except_bind_ok, hdown]
    rw [show (⟨B, lc cfg (i + 1), shapeAt S i⟩ : Tensor) = doutT cfg B S i from rfl]
    rw [show (List.range i).map (doutT cfg B S) ++ [doutT cfg B S i] =
        (List.range (i + 1)).map (doutT cfg B S) by
      rw [List.range_succ, List.map_append]
      rfl]
    rw [ih (i + 1) (by omega) (by omega) (tr ++ [TOp.downBlock i, TOp.opDown i])]
    rw [show i + (c + 1) = i + 1 + c from by omega]
    simp [List.append_assoc]

theorem negIndex_spec (dout : List Tensor) (i : Nat) (h : i + 1 ≤ dout.length)
    (t : Tensor) (ht : dout[dout.length - (i + 1)]? = some t) :
    negIndex dout i = Except.ok t := by
  unfold negIndex
  rw [if_pos h, ht]

theorem resizeStep_off (m : UnetModel) (i : Nat) (z : Tensor)
    (h : m.cfg.upsampconv = false) : resizeStep m i z = Except.ok z := by
  unfold resizeStep
  rw [if_neg (by simp [h])]

/-- The resize convolution at loop index n_layers - 1 - j preserves the
tensor at depth j (kernel 3, stride 1, matching channels). -/
theorem resize_step_mk (cfg : UnetConfig) (B : Nat) (S : List Nat)
    (hlen : S.length = convDims cfg)
    (hS : ∀ s ∈ S, 0 < s ∧ 2 ^ cfg.n_layers ∣ s) (hu : cfg.upsampconv = true)
    (j : Nat) (hj : j < cfg.n_layers) :
    resizeStep (mkModel cfg) (cfg.n_layers - 1 - j) ⟨B, lc cfg (j + 2), shapeAt S j⟩ =
      Except.ok ⟨B, lc cfg (j + 2), shapeAt S j⟩ := by
  unfold resizeStep
  rw [if_pos (show (mkModel cfg).cfg.upsampconv = true from hu)]
  have hiL : cfg.n_layers - 1 - j < cfg.n_layers := by omega
  have hval : 2 + cfg.n_layers - 1 - (cfg.n_layers - 1 - j) = j + 2 := by omega
  have hidx : (mkModel cfg).upsampconvs[cfg.n_layers - 1 - j]? =
      some (mkPlain cfg (lc cfg (j + 2)) (lc cfg (j + 2)) 3 1) := by
    show (if cfg.upsampconv then _ else _)[cfg.n_layers - 1 - j]? = _
    rw [if_pos hu, getElem?_map_rev_range' _ 2 cfg.n_layers _ hiL, hval]
  rw [hidx]
  exact apply_mkPlain_one cfg (lc cfg (j + 2)) (lc cfg (j + 2)) 3 (by omega)
    ⟨B, lc cfg (j + 2), shapeAt S j⟩ (by rw [shapeAt_length, hlen]) rfl
    (fun d hd => by
      have := shapeAt_two_le j hj hS d hd
      omega)

/-- The expanding loop invariant: with c iterations remaining, the current
tensor sits at depth c with channels lc (c + 2); the loop finishes with the
tensor at full resolution with channels lc 2 and appends the expected trace
chunks. -/
theorem upLoop_spec (cfg : UnetConfig) (B : Nat) (S : List Nat)
    (hk : cfg.kernel_size % 2 = 1) (hlen : S.length = convDims cfg)
    (hS : ∀ s ∈ S, 2 ^ cfg.n_layers ∣ s ∧ cfg.kernel_size / 2 < s / 2 ^ cfg.n_layers)
    (hd : cfg.deconv = true ∨ interpOK cfg) :
    ∀ c : Nat, 1 ≤ cfg.n_layers → c ≤ cfg.n_layers - 1 → ∀ tr : List TOp,
      upLoop (mkModel cfg) ((List.range cfg.n_layers).map (doutT cfg B S))
        (upPairs cfg B S c) (cfg.n_layers - c)
        ⟨B, lc cfg (c + 2), shapeAt S c⟩ tr =
      Except.ok (⟨B, lc cfg 2, S⟩,
        tr ++ List.flatten ((List.range' (cfg.n_layers - c) c).map (upChunk cfg S))) := by
  intro c
  induction c with
  | zero =>
    intro h1 hc tr
    simp [upLoop, upPairs, shapeAt_zero]
  | succ c ih =>
    intro h1 hc tr
    have hS0 := margin_pos hS
    have hpairs : upPairs cfg B S (c + 1) =
        (ulAt cfg (c + 3), doutT cfg B S (c + 1)) :: upPairs cfg B S c := by
      unfold upPairs
      rw [List.range'_1_concat, List.reverse_concat, List.map_cons,
        show 3 + c = c + 3 from by omega, show c + 3 - 2 = c + 1 from by omega]
    rw [hpairs, show cfg.n_layers - (c + 1) = cfg.n_layers - 1 - c from by omega]
    have hcat : catChannels ⟨B, lc cfg (c + 1 + 2), shapeAt S (c + 1)⟩
        (doutT cfg B S (c + 1)) =
        Except.ok ⟨B, lc cfg (c + 1 + 2) + lc cfg (c + 2), shapeAt S (c + 1)⟩ := by
      unfold catChannels doutT
      rw [if_pos ⟨rfl, rfl⟩]
    have hul : (ulAt cfg (c + 3)).apply
        ⟨B, lc cfg (c + 1 + 2) + lc cfg (c + 2), shapeAt S (c + 1)⟩ =
        Except.ok ⟨B, lc cfg (c + 2), shapeAt S (c + 1)⟩ := by
      unfold ulAt
      have hpad1 : ∀ d ∈ shapeAt S (c + 1), (cfg.kernel_size + cfg.a2u) / 2 < d := by
        intro d hd
        have h2 := shapeAt_margin_two (c + 1) (by omega) hS d hd
        have h3 := a2u_le_two cfg
        have h4 : (cfg.kernel_size + cfg.a2u) / 2 ≤ (cfg.kernel_size + 2) / 2 :=
          Nat.div_le_div_right (by omega)
        omega
      exact apply_mkDbl cfg (lc cfg (c + 3) + lc cfg (c + 3 - 1)) (lc cfg (c + 3 - 1))
        (lc cfg (c + 3 - 1)) _ _ (ka2u_odd cfg hk) hk _
        (by rw [shapeAt_length, hlen]) rfl hpad1
        (shapeAt_margin (c + 1) (by omega) hS)
    have hni : negIndex ((List.range cfg.n_layers).map (doutT cfg B S))
        (cfg.n_layers - 1 - c) = Except.ok (doutT cfg B S c) := by
      have hlen2 : ((List.range cfg.n_layers).map (doutT cfg B S)).length = cfg.n_layers := by
        simp
      refine negIndex_spec _ _ ?_ _ ?_
      · rw [hlen2]
        omega
      · rw [hlen2, show cfg.n_layers - (cfg.n_layers - 1 - c + 1) = c from by omega]
        exact getElem?_map_range _ _ _ (by omega)
    have hsp : (doutT cfg B S c).spatial = shapeAt S c := rfl
    have hupstep := up_step cfg B S hlen hS0 hd c (by omega) (lc cfg (c + 2)) rfl
      (shapeAt S c) rfl
    have hmcfg : (mkModel cfg).cfg = cfg := rfl
    cases hu : cfg.upsampconv with
    | false =>
      have hres := resizeStep_off (mkModel cfg) (cfg.n_layers - 1 - c)
        ⟨B, lc cfg (c + 2), shapeAt S c⟩ hu
      simp only [upLoop, hcat, hul, hni, hsp, hupstep, hres, except_bind_ok, hmcfg, hu,
        Bool.false_eq_true, if_false, List.append_nil]
      rw [show cfg.n_layers - 1 - c + 1 = cfg.n_layers - c from by omega,
        ih h1 (by omega) (tr ++ [TOp.opCat, TOp.upBlock (cfg.n_layers - 1 - c),
          TOp.opUp (shapeAt S c) (cfg.n_layers - 1 - c)])]
      rw [show cfg.n_layers - 1 - c = cfg.n_layers - (c + 1) from by omega,
        List.range'_succ, List.map_cons, List.flatten_cons]
      rw [show cfg.n_layers - (c + 1) + 1 = cfg.n_layers - c from by omega]
      simp only [upChunk, hu, Bool.false_eq_true, if_false, List.append_nil,
        show cfg.n_layers - 1 - (cfg.n_layers - (c + 1)) = c from by omega,
        List.append_assoc]
    | true =>
      have hres := resize_step_mk cfg B S hlen hS0 hu c (by omega)
      simp only [upLoop, hcat, hul, hni, hsp, hupstep, hres, except_bind_ok, hmcfg, hu,
        if_true]
      rw [show cfg.n_layers - 1 - c + 1 = cfg.n_layers - c from by omega,
        ih h1 (by omega) (tr ++ [TOp.opCat, TOp.upBlock (cfg.n_layers - 1 - c),
          TOp.opUp (shapeAt S c) (cfg.n_layers - 1 - c)] ++ [TOp.resizeConv (cfg.n_layers - 1 - c)])]
      rw [show cfg.n_layers - 1 - c = cfg.n_layers - (c + 1) from by omega,
        List.range'_succ, List.map_cons, List.flatten_cons]
      rw [show cfg.n_layers - (c + 1) + 1 = cfg.n_layers - c from by omega]
      simp only [upChunk, hu, if_true,
        show cfg.n_layers - 1 - (cfg.n_layers - (c + 1)) = c from by omega,
        List.append_assoc]

theorem upPairs_succ (cfg : UnetConfig) (B : Nat) (S : List Nat) (c : Nat) :
    upPairs cfg B S (c + 1) =
      (ulAt cfg (c + 3), doutT cfg B S (c + 1)) :: upPairs cfg B S c := by
  unfold upPairs
  rw [List.range'_1_concat, List.reverse_concat, List.map_cons,
    show 3 + c = c + 3 from by omega, show c + 3 - 2 = c + 1 from by omega]

/-- Zipping the expanding blocks with the reversed recorded activations
yields exactly the pair list consumed by the expanding loop. -/
theorem up_zip (cfg : UnetConfig) (B : Nat) (S : List Nat) :
    ∀ c : Nat,
      (((List.range' 3 c).reverse).map (ulAt cfg)).zip
        (((List.range (c + 1)).reverse).map (doutT cfg B S)) = upPairs cfg B S c := by
  intro c
  induction c with
  | zero => rfl
  | succ c ih =>
    rw [upPairs_succ, List.range'_1_concat, List.reverse_concat, List.map_cons,
      List.range_succ, List.reverse_concat, List.map_cons, List.zip_cons_cons, ih,
      show 3 + c = c + 3 from by omega]

/-- The forward pass master theorem: on a valid configuration with an odd
kernel size and an input of matching rank whose positive spatial extents are
all divisible by 2 ^ n_layers, the forward pass succeeds, returns a tensor
with one channel and the input spatial shape, and executes exactly the
operations of fullTrace. -/
theorem forward_spec (cfg : UnetConfig) (B : Nat) (S : List Nat)
    (hv : ValidConfig cfg) (hk : cfg.kernel_size % 2 = 1)
    (hlen : S.length = convDims cfg)
    (hS : ∀ s ∈ S, 2 ^ cfg.n_layers ∣ s ∧ cfg.kernel_size / 2 < s / 2 ^ cfg.n_layers) :
    (mkModel cfg).forward ⟨B, 1, S⟩ = Except.ok (⟨B, 1, S⟩, fullTrace cfg S) := by
  obtain ⟨h1, ha, hn, ho, hd⟩ := hv
  have hS0 := margin_pos hS
  have hpos0 : ∀ d ∈ S, 1 ≤ d := fun s hs => (hS0 s hs).1
  have hstart : (mkModel cfg).start.apply ⟨B, 1, S⟩ = Except.ok ⟨B, lc cfg 1, S⟩ := by
    show (mkDbl cfg 1 (lc cfg 0) (lc cfg 1) cfg.kernel_size cfg.kernel_size).apply _ = _
    exact apply_mkDbl cfg 1 (lc cfg 0) (lc cfg 1) _ _ hk hk _ hlen rfl
      (margin_base hS) (margin_base hS)
  have hdown0 : (mkModel cfg).down ⟨B, lc cfg 1, S⟩ 0 =
      Except.ok ⟨B, lc cfg 1, shapeAt S 1⟩ := by
    have h := down_step cfg B S hk hlen hS 0 (by omega) (lc cfg 1) rfl
    rw [shapeAt_zero] at h
    exact h
  have hdl : (mkModel cfg).down_layers =
      (List.range' 1 (cfg.n_layers - 1)).map (dlAt cfg) := rfl
  have hloop := downLoop_spec cfg B S hk hlen hS (cfg.n_layers - 1) 1 (by omega)
    (by omega) [TOp.opStart, TOp.opDown 0]
  have e1 : (List.range 1).map (doutT cfg B S) = [(⟨B, lc cfg 1, S⟩ : Tensor)] := by
    rw [show List.range 1 = [0] from rfl]
    simp [doutT, shapeAt_zero]
  have eL : 1 + (cfg.n_layers - 1) = cfg.n_layers := by omega
  rw [e1, eL] at hloop
  have hbridge : (mkModel cfg).bridge.apply ⟨B, lc cfg cfg.n_layers, shapeAt S cfg.n_layers⟩ =
      Except.ok ⟨B, lc cfg (cfg.n_layers + 1), shapeAt S cfg.n_layers⟩ := by
    show (mkDbl cfg (lc cfg cfg.n_layers) (lc cfg cfg.n_layers) (lc cfg (cfg.n_layers + 1))
      cfg.kernel_size cfg.kernel_size).apply _ = _
    exact apply_mkDbl cfg (lc cfg cfg.n_layers) (lc cfg cfg.n_layers)
      (lc cfg (cfg.n_layers + 1)) _ _ hk hk _ (by rw [shapeAt_length, hlen]) rfl
      (shapeAt_margin cfg.n_layers (le_refl _) hS)
      (shapeAt_margin cfg.n_layers (le_refl _) hS)
  have hlast : ((List.range cfg.n_layers).map (doutT cfg B S)).getLast? =
      some (doutT cfg B S (cfg.n_layers - 1)) := by
    have hr : List.range cfg.n_layers =
        List.range (cfg.n_layers - 1) ++ [cfg.n_layers - 1] := by
      rw [← List.range_succ]
      congr 1
      omega
    rw [hr, List.map_append]
    exact List.getLast?_concat _
  have hup0 : (mkModel cfg).up ⟨B, lc cfg (cfg.n_layers + 1), shapeAt S cfg.n_layers⟩
      (doutT cfg B S (cfg.n_layers - 1)).spatial 0 =
      Except.ok ⟨B, lc cfg (cfg.n_layers + 1), shapeAt S (cfg.n_layers - 1)⟩ := by
    have hsp2 : (doutT cfg B S (cfg.n_layers - 1)).spatial =
        shapeAt S (cfg.n_layers - 1) := rfl
    have hC2 : lc cfg (cfg.n_layers + 1) = lc cfg (cfg.n_layers - 1 + 2) := by
      congr 1
      omega
    have h := up_step cfg B S hlen hS0 hd (cfg.n_layers - 1) (by omega)
      (lc cfg (cfg.n_layers + 1)) hC2
      (doutT cfg B S (cfg.n_layers - 1)).spatial hsp2
    rw [show cfg.n_layers - 1 - (cfg.n_layers - 1) = 0 from by omega,
      show cfg.n_layers - 1 + 1 = cfg.n_layers from by omega] at h
    exact h
  have hzip : ((mkModel cfg).up_layers).zip
      (((List.range cfg.n_layers).map (doutT cfg B S)).reverse) =
      upPairs cfg B S (cfg.n_layers - 1) := by
    have hul_eq : (mkModel cfg).up_layers =
        ((List.range' 3 (cfg.n_layers - 1)).reverse).map (ulAt cfg) := by
      show ((List.range' 3 (cfg.n_layers + 2 - 3)).reverse).map _ = _
      rw [show cfg.n_layers + 2 - 3 = cfg.n_layers - 1 from by omega]
      rfl
    rw [hul_eq, ← List.map_reverse,
      show List.range cfg.n_layers = List.range (cfg.n_layers - 1 + 1) from by
        congr 1
        omega]
    exact up_zip cfg B S (cfg.n_layers - 1)
  have huploop := upLoop_spec cfg B S hk hlen hS hd (cfg.n_layers - 1) (by omega)
    (by omega)
  rw [show cfg.n_layers - (cfg.n_layers - 1) = 1 from by omega,
    show cfg.n_layers - 1 + 2 = cfg.n_layers + 1 from by omega] at huploop
  have hd0 : ((List.range cfg.n_layers).map (doutT cfg B S))[0]? =
      some (doutT cfg B S 0) := getElem?_map_range _ _ _ (by omega)
  have hcatf : catChannels ⟨B, lc cfg 2, S⟩ (doutT cfg B S 0) =
      Except.ok ⟨B, lc cfg 2 + lc cfg 1, S⟩ := by
    unfold catChannels doutT
    rw [shapeAt_zero, if_pos ⟨rfl, rfl⟩]
  have hfin : (mkModel cfg).finish.apply ⟨B, lc cfg 2 + lc cfg 1, S⟩ =
      Except.ok ⟨B, 1, S⟩ := by
    show (mkPlain cfg (lc cfg 2 + lc cfg 1) 1 1 1).apply _ = _
    exact apply_mkPlain_one cfg (lc cfg 2 + lc cfg 1) 1 1 (by omega) _ hlen rfl
      (fun d hd => by
        have := hpos0 d hd
        omega)
  simp only [UnetModel.forward, hstart, except_bind_ok, hdown0, hdl, hloop, hbridge,
    hlast, hup0, hzip, huploop, hd0, hcatf, hfin]
  simp [fullTrace, doutT, List.append_assoc]

theorem shapeAt_ne {S : List Nat} (j : Nat) (h1 : 1 ≤ j)
    (hS : ∀ s ∈ S, 0 < s) (hne : S ≠ []) : shapeAt S j ≠ S := by
  cases S with
  | nil => exact absurd rfl hne
  | cons a l =>
    intro h
    unfold shapeAt at h
    rw [List.map_cons] at h
    injection h with hhead _
    have hpos := hS a (by simp)
    have hlt : a / 2 ^ j < a := Nat.div_lt_self hpos (Nat.one_lt_two_pow (by omega))
    omega

theorem adjacent_append_left {α : Type} {a b : α} {l : List α} (l2 : List α)
    (h : Adjacent a b l) : Adjacent a b (l2 ++ l) := by
  obtain ⟨p, t, rfl⟩ := h
  exact ⟨l2 ++ p, t, by rw [List.append_assoc]⟩

theorem adjacent_append_right {α : Type} {a b : α} {l : List α} (l2 : List α)
    (h : Adjacent a b l) : Adjacent a b (l ++ l2) := by
  obtain ⟨p, t, rfl⟩ := h
  exact ⟨p, t ++ l2, by simp⟩

theorem adjacent_flatten {α : Type} {a b : α} {chunk : List α}
    {chunks : List (List α)} (hc : chunk ∈ chunks) (h : Adjacent a b chunk) :
    Adjacent a b chunks.flatten := by
  induction chunks with
  | nil => cases hc
  | cons c rest ih =>
    rw [List.flatten_cons]
    rcases List.mem_cons.1 hc with rfl | hmem
    · exact adjacent_append_right _ h
    · exact adjacent_append_left _ (ih hmem)

/-- A successful application of the transpose convolution built for the
strided upsampling path doubles every spatial extent. -/
theorem mkTrans_doubles (cfg : UnetConfig) (i o : Nat) (t y : Tensor)
    (h : (mkTrans cfg i o 2).apply t = Except.ok y) :
    y.spatial = t.spatial.map (fun d => d * 2) := by
  unfold Conv.apply at h
  split at h
  · rw [if_pos (show (mkTrans cfg i o 2).transpose = true from rfl)] at h
    split at h
    · rename_i hall
      cases h
      show t.spatial.map _ = _
      apply List.map_congr_left
      intro d hd
      have := hall d hd
      show (d - 1) * 2 + 2 = d * 2
      omega
    · cases h
  · cases h

/-- C1 (amended): for every valid NetworkConfig with an odd kernel size and
every input tensor of the matching rank whose spatial extents are divisible
by 2 ^ n_layers with quotient exceeding kernel_size / 2 (so every padded
convolution, in particular the reflection padding at the bridge depth, fits
its input), construction succeeds and the forward pass returns a tensor of
shape [B, 1, S]: the spatial shape equals the input spatial shape and the
channel count is exactly 1.  Both extra conditions are required:
C1_counterexample_as_stated shows the claim fails as stated for a valid
even-kernel configuration and for a valid odd-kernel configuration whose
input is divisible but too small for the deepest reflection padding. -/
theorem C1_shape_preservation_odd_kernel (cfg : UnetConfig) (B : Nat) (S : List Nat)
    (hv : ValidConfig cfg) (hk : cfg.kernel_size % 2 = 1)
    (hlen : S.length = convDims cfg)
    (hS : ∀ s ∈ S, 2 ^ cfg.n_layers ∣ s ∧ cfg.kernel_size / 2 < s / 2 ^ cfg.n_layers) :
    Unet.init cfg = Except.ok (mkModel cfg) ∧
    (mkModel cfg).forward ⟨B, 1, S⟩ = Except.ok (⟨B, 1, S⟩, fullTrace cfg S) :=
  ⟨init_ok cfg hv, forward_spec cfg B S hv hk hlen hS⟩

/-- C1 witness at a concrete configuration and input. -/
theorem C1_shape_preservation_witness :
    Unet.init cfgA = Except.ok (mkModel cfgA) ∧
    (mkModel cfgA).forward ⟨1, 1, [8, 8]⟩ =
      Except.ok (⟨1, 1, [8, 8]⟩, fullTrace cfgA [8, 8]) :=
  C1_shape_preservation_odd_kernel cfgA 1 [8, 8] (by decide) (by decide) (by decide)
    (by decide)

/-- Characterization of the upsampling steps recorded in a full trace:
either the step out of the bridge (index 0, targeting the shape at depth
n_layers - 1) or a step of the expanding loop (index between 1 and
n_layers - 1, targeting the shape at the mirrored depth). -/
theorem opUp_mem_fullTrace {cfg : UnetConfig} {S t : List Nat} {i : Nat}
    (hmem : TOp.opUp t i ∈ fullTrace cfg S) :
    (t = shapeAt S (cfg.n_layers - 1) ∧ i = 0) ∨
    (1 ≤ i ∧ i < cfg.n_layers ∧ t = shapeAt S (cfg.n_layers - 1 - i)) := by
  unfold fullTrace at hmem
  rcases List.mem_append.1 hmem with h | hF
  · rcases List.mem_append.1 h with h | hU
    · rcases List.mem_append.1 h with h | hB
      · rcases List.mem_append.1 h with hA | hD
        · simp at hA
        · obtain ⟨ch, hch, hin⟩ := List.mem_flatten.1 hD
          obtain ⟨n, _, rfl⟩ := List.mem_map.1 hch
          simp at hin
      · rcases List.mem_cons.1 hB with h1 | h1
        · cases h1
        rcases List.mem_cons.1 h1 with h1 | h1
        · injection h1 with ht hi
          exact Or.inl ⟨ht, hi⟩
        · cases h1
    · obtain ⟨ch, hch, hin⟩ := List.mem_flatten.1 hU
      obtain ⟨i0, hi0, rfl⟩ := List.mem_map.1 hch
      have hi0r := List.mem_range'_1.1 hi0
      unfold upChunk at hin
      rcases List.mem_append.1 hin with h3 | h4
      · rcases List.mem_cons.1 h3 with h1 | h1
        · cases h1
        rcases List.mem_cons.1 h1 with h1 | h1
        · cases h1
        rcases List.mem_cons.1 h1 with h1 | h1
        · injection h1 with ht hi
          subst hi
          exact Or.inr ⟨hi0r.1, by omega, ht⟩
        · cases h1
      · cases hu : cfg.upsampconv <;> rw [hu] at h4 <;> simp at h4
  · simp at hF

/-- Any resize convolution recorded in a full trace has loop index at least
one: the upsampling step out of the bridge is never followed by one. -/
theorem resizeConv_mem_fullTrace {cfg : UnetConfig} {S : List Nat} {j : Nat}
    (hmem : TOp.resizeConv j ∈ fullTrace cfg S) : 1 ≤ j ∧ j ≤ cfg.n_layers - 1 := by
  unfold fullTrace at hmem
  rcases List.mem_append.1 hmem with h | hF
  · rcases List.mem_append.1 h with h | hU
    · rcases List.mem_append.1 h with h | hB
      · rcases List.mem_append.1 h with hA | hD
        · simp at hA
        · obtain ⟨ch, hch, hin⟩ := List.mem_flatten.1 hD
          obtain ⟨n, _, rfl⟩ := List.mem_map.1 hch
          simp at hin
      · simp at hB
    · obtain ⟨ch, hch, hin⟩ := List.mem_flatten.1 hU
      obtain ⟨i0, hi0, rfl⟩ := List.mem_map.1 hch
      have hi0r := List.mem_range'_1.1 hi0
      unfold upChunk at hin
      rcases List.mem_append.1 hin with h3 | h4
      · simp at h3
      · cases hu : cfg.upsampconv <;> rw [hu] at h4 <;> simp at h4
        subst h4
        omega
  · simp at hF

/-- The final expanding iteration records an upsampling step targeting the
full input shape, and, when the upsampconv option is set, a resize
convolution immediately after it. -/
theorem final_opUp_mem (cfg : UnetConfig) (S : List Nat) (h2 : 2 ≤ cfg.n_layers) :
    TOp.opUp S (cfg.n_layers - 1) ∈ fullTrace cfg S := by
  have hchunk : TOp.opUp S (cfg.n_layers - 1) ∈ upChunk cfg S (cfg.n_layers - 1) := by
    unfold upChunk
    rw [show cfg.n_layers - 1 - (cfg.n_layers - 1) = 0 from by omega, shapeAt_zero]
    exact List.mem_append.2 (Or.inl (by simp))
  have hmem : upChunk cfg S (cfg.n_layers - 1) ∈
      (List.range' 1 (cfg.n_layers - 1)).map (upChunk cfg S) :=
    List.mem_map.2 ⟨cfg.n_layers - 1, List.mem_range'_1.2 (by omega), rfl⟩
  unfold fullTrace
  exact List.mem_append.2 (Or.inl (List.mem_append.2
    (Or.inr (List.mem_flatten.2 ⟨_, hmem, hchunk⟩))))

/-- C2 (amended): exactly one upsampling step targeting the spatial shape of
d[0] is performed before the finishing block: it is the final operation of
the last expanding iteration (loop index n_layers - 1).  Its output, already
at the spatial shape of d[0], is concatenated with d[0] and passed through
the finishing block, which collapses to one output channel, then through the
output activation (absent when the output activation kind is linear). -/
theorem C2_final_upsample_then_concat (cfg : UnetConfig) (B : Nat) (S : List Nat)
    (hv : ValidConfig cfg) (hk : cfg.kernel_size % 2 = 1)
    (hlen : S.length = convDims cfg)
    (hS : ∀ s ∈ S, 2 ^ cfg.n_layers ∣ s ∧ cfg.kernel_size / 2 < s / 2 ^ cfg.n_layers)
    (h2 : 2 ≤ cfg.n_layers) :
    (mkModel cfg).forward ⟨B, 1, S⟩ = Except.ok (⟨B, 1, S⟩, fullTrace cfg S) ∧
    TOp.opUp S (cfg.n_layers - 1) ∈ fullTrace cfg S ∧
    (∀ t i, TOp.opUp t i ∈ fullTrace cfg S → t = S → i = cfg.n_layers - 1) ∧
    (∀ t i, TOp.opUp t i ∈ fullTrace cfg S → i = cfg.n_layers - 1 → t = S) ∧
    (fullTrace cfg S).getLast? = some TOp.opFinish ∧
    (mkModel cfg).finish.conv.out_c = 1 ∧
    (cfg.output_activation = "linear" → (mkModel cfg).finish.hasAct = false) := by
  have hSne : S ≠ [] := by
    intro h
    rw [h] at hlen
    unfold convDims at hlen
    split at hlen <;> cases hlen
  have hSpos : ∀ s ∈ S, 0 < s := fun s hs => (margin_pos hS s hs).1
  refine ⟨forward_spec cfg B S hv hk hlen hS, final_opUp_mem cfg S h2, ?_, ?_, ?_, rfl, ?_⟩
  · intro t i hmem ht
    subst ht
    rcases opUp_mem_fullTrace hmem with ⟨ht, hi⟩ | ⟨h1i, hiL, ht⟩
    · exact absurd ht.symm (shapeAt_ne (cfg.n_layers - 1) (by omega) hSpos hSne)
    · by_cases hlow : cfg.n_layers - 1 - i = 0
      · omega
      · exact absurd ht.symm
          (shapeAt_ne (cfg.n_layers - 1 - i) (by omega) hSpos hSne)
  · intro t i hmem hi
    subst hi
    rcases opUp_mem_fullTrace hmem with ⟨ht, hi⟩ | ⟨h1i, hiL, ht⟩
    · omega
    · rw [ht, show cfg.n_layers - 1 - (cfg.n_layers - 1) = 0 from by omega, shapeAt_zero]
  · unfold fullTrace
    rw [show ([TOp.opCat, TOp.opFinish] : List TOp) = [TOp.opCat] ++ [TOp.opFinish]
      from rfl, ← List.append_assoc]
    exact List.getLast?_concat _
  · intro hlin
    show (if cfg.output_activation ≠ "linear" then true else false) = false
    rw [if_neg (by simp [hlin])]

/-- C2 witness at a concrete configuration and input. -/
theorem C2_final_upsample_then_concat_witness :
    (mkModel cfgA).forward ⟨1, 1, [8, 8]⟩ =
      Except.ok (⟨1, 1, [8, 8]⟩, fullTrace cfgA [8, 8]) ∧
    TOp.opUp [8, 8] (cfgA.n_layers - 1) ∈ fullTrace cfgA [8, 8] ∧
    (∀ t i, TOp.opUp t i ∈ fullTrace cfgA [8, 8] → t = [8, 8] →
      i = cfgA.n_layers - 1) ∧
    (∀ t i, TOp.opUp t i ∈ fullTrace cfgA [8, 8] → i = cfgA.n_layers - 1 →
      t = [8, 8]) ∧
    (fullTrace cfgA [8, 8]).getLast? = some TOp.opFinish ∧
    (mkModel cfgA).finish.conv.out_c = 1 ∧
    (cfgA.output_activation = "linear" → (mkModel cfgA).finish.hasAct = false) :=
  C2_final_upsample_then_concat cfgA 1 [8, 8] (by decide) (by decide) (by decide)
    (by decide) (by decide)

/-- C6 (amended): when the upsampconv option is set, every upsampling step of
the expanding loop (loop indices 1 to n_layers - 1) is immediately followed
by a resize convolution with kernel size 3 and stride 1, but the first
upsampling step, out of the bridge (loop index 0), is not followed by one:
no resize convolution with index 0 occurs in the trace at all, although the
model owns n_layers resize convolutions of kernel 3 and stride 1 (so the
entry at index 0 is constructed but never applied). -/
theorem C6_resizeconv_after_loop_upsamples (cfg : UnetConfig) (B : Nat) (S : List Nat)
    (hv : ValidConfig cfg) (hk : cfg.kernel_size % 2 = 1)
    (hlen : S.length = convDims cfg)
    (hS : ∀ s ∈ S, 2 ^ cfg.n_layers ∣ s ∧ cfg.kernel_size / 2 < s / 2 ^ cfg.n_layers)
    (hu : cfg.upsampconv = true) :
    Unet.init cfg = Except.ok (mkModel cfg) ∧
    (mkModel cfg).forward ⟨B, 1, S⟩ = Except.ok (⟨B, 1, S⟩, fullTrace cfg S) ∧
    (∀ i, 1 ≤ i → i ≤ cfg.n_layers - 1 →
      Adjacent (TOp.opUp (shapeAt S (cfg.n_layers - 1 - i)) i) (TOp.resizeConv i)
        (fullTrace cfg S)) ∧
    TOp.resizeConv 0 ∉ fullTrace cfg S ∧
    (∀ cv ∈ (mkModel cfg).upsampconvs,
      cv.kernel = 3 ∧ cv.stride = 1 ∧ cv.transpose = false) ∧
    (mkModel cfg).upsampconvs.length = cfg.n_layers := by
  refine ⟨init_ok cfg hv, forward_spec cfg B S hv hk hlen hS, ?_, ?_, ?_, ?_⟩
  · intro i h1i hiL
    have h1L : 1 ≤ cfg.n_layers := hv.1
    have hchunk : Adjacent (TOp.opUp (shapeAt S (cfg.n_layers - 1 - i)) i)
        (TOp.resizeConv i) (upChunk cfg S i) := by
      refine ⟨[TOp.opCat, TOp.upBlock i], [], ?_⟩
      simp [upChunk, hu]
    have hmem : upChunk cfg S i ∈
        (List.range' 1 (cfg.n_layers - 1)).map (upChunk cfg S) :=
      List.mem_map.2 ⟨i, List.mem_range'_1.2 ⟨h1i, by omega⟩, rfl⟩
    have hU := adjacent_flatten hmem hchunk
    unfold fullTrace
    exact adjacent_append_right _ (adjacent_append_left _ hU)
  · intro hmem
    have := resizeConv_mem_fullTrace hmem
    omega
  · intro cv hcv
    have he : (mkModel cfg).upsampconvs = ((List.range' 2 cfg.n_layers).reverse).map
        (fun n => mkPlain cfg (lc cfg n) (lc cfg n) 3 1) := by
      show (if cfg.upsampconv then _ else _) = _
      rw [if_pos hu]
    rw [he] at hcv
    obtain ⟨n, _, rfl⟩ := List.mem_map.1 hcv
    exact ⟨rfl, rfl, rfl⟩
  · have he : (mkModel cfg).upsampconvs = ((List.range' 2 cfg.n_layers).reverse).map
        (fun n => mkPlain cfg (lc cfg n) (lc cfg n) 3 1) := by
      show (if cfg.upsampconv then _ else _) = _
      rw [if_pos hu]
    rw [he]
    simp

/-- C6 witness at a concrete configuration and input. -/
theorem C6_resizeconv_witness :
    Unet.init cfgUps = Except.ok (mkModel cfgUps) ∧
    (mkModel cfgUps).forward ⟨1, 1, [8, 8]⟩ =
      Except.ok (⟨1, 1, [8, 8]⟩, fullTrace cfgUps [8, 8]) ∧
    (∀ i, 1 ≤ i → i ≤ cfgUps.n_layers - 1 →
      Adjacent (TOp.opUp (shapeAt [8, 8] (cfgUps.n_layers - 1 - i)) i)
        (TOp.resizeConv i) (fullTrace cfgUps [8, 8])) ∧
    TOp.resizeConv 0 ∉ fullTrace cfgUps [8, 8] ∧
    (∀ cv ∈ (mkModel cfgUps).upsampconvs,
      cv.kernel = 3 ∧ cv.stride = 1 ∧ cv.transpose = false) ∧
    (mkModel cfgUps).upsampconvs.length = cfgUps.n_layers :=
  C6_resizeconv_after_loop_upsamples cfgUps 1 [8, 8] (by decide) (by decide)
    (by decide) (by decide) (by decide)

/-- C10 (amended): under the strided convolution strategy, the upsampling
helper ignores the recorded target spatial shape entirely, and the built
transpose convolutions (kernel 2, stride 2, one per expanding depth) exactly
double each spatial extent on every successful application.  With an ODD
kernel size, for every input of matching rank whose spatial extents are
positive and divisible by 2 ^ n_layers, the forward pass succeeds, so the
spatial shapes agree at every skip concatenation and the concatenation
failure branch is never taken; the divisibility precondition is required, as
the deconv run on the non divisible input [6, 6] fails at a concatenation.
The odd kernel requirement is forced by C10_counterexample_even_kernel_cat. -/
theorem C10_deconv_ignores_target (cfg : UnetConfig) (B : Nat) (S : List Nat)
    (hv : ValidConfig cfg) (hk : cfg.kernel_size % 2 = 1)
    (hlen : S.length = convDims cfg)
    (hS : ∀ s ∈ S, 2 ^ cfg.n_layers ∣ s ∧ cfg.kernel_size / 2 < s / 2 ^ cfg.n_layers)
    (hdc : cfg.deconv = true) :
    (∀ x sz1 sz2 i, (mkModel cfg).up x sz1 i = (mkModel cfg).up x sz2 i) ∧
    (∀ i, i < cfg.n_layers → (mkModel cfg).upconv[i]? =
      some ⟨mkTrans cfg (lc cfg (2 + cfg.n_layers - 1 - i))
        (lc cfg (2 + cfg.n_layers - 1 - i)) 2⟩) ∧
    (∀ i o k, Unet.conv cfg i o (some k) (some "up") = Except.ok (mkTrans cfg i o k)) ∧
    (∀ i o t y, (mkTrans cfg i o 2).apply t = Except.ok y →
      y.spatial = t.spatial.map (fun d => d * 2)) ∧
    (mkModel cfg).forward ⟨B, 1, S⟩ = Except.ok (⟨B, 1, S⟩, fullTrace cfg S) ∧
    cfgA.deconv = true ∧
    (mkModel cfgA).forward ⟨1, 1, [6, 6]⟩ = Except.error UErr.shapeError := by
  refine ⟨?_, ?_, conv_mode_up cfg, mkTrans_doubles cfg,
    forward_spec cfg B S hv hk hlen hS, by decide, by decide⟩
  · intro x sz1 sz2 i
    unfold UnetModel.up
    rw [if_neg (by simp [mkModel, hdc]), if_neg (by simp [mkModel, hdc])]
  · intro i hi
    show (if cfg.deconv then _ else _)[i]? = _
    rw [if_pos hdc]
    exact getElem?_map_rev_range' _ 2 cfg.n_layers i hi

/-- C10 witness at a concrete configuration and input. -/
theorem C10_deconv_ignores_target_witness :
    (∀ x sz1 sz2 i, (mkModel cfgA).up x sz1 i = (mkModel cfgA).up x sz2 i) ∧
    (∀ i, i < cfgA.n_layers → (mkModel cfgA).upconv[i]? =
      some ⟨mkTrans cfgA (lc cfgA (2 + cfgA.n_layers - 1 - i))
        (lc cfgA (2 + cfgA.n_layers - 1 - i)) 2⟩) ∧
    (∀ i o k, Unet.conv cfgA i o (some k) (some "up") =
      Except.ok (mkTrans cfgA i o k)) ∧
    (∀ i o t y, (mkTrans cfgA i o 2).apply t = Except.ok y →
      y.spatial = t.spatial.map (fun d => d * 2)) ∧
    (mkModel cfgA).forward ⟨1, 1, [8, 8]⟩ =
      Except.ok (⟨1, 1, [8, 8]⟩, fullTrace cfgA [8, 8]) ∧
    cfgA.deconv = true ∧
    (mkModel cfgA).forward ⟨1, 1, [6, 6]⟩ = Except.error UErr.shapeError :=
  C10_deconv_ignores_target cfgA 1 [8, 8] (by decide) (by decide) (by decide)
    (by decide) (by decide)

/-- C3 (amended): an unsupported normalization, activation or __conv mode
string raises a configuration error during construction, but an unsupported
interpolation mode string does not: construction succeeds regardless of the
interpolation mode string, and, when deconv is unset, the error surfaces
only at the first upsampling step of a forward pass (with deconv set the
string is never consulted at all). -/
theorem C3_interp_mode_error_at_forward (cfg : UnetConfig) (B : Nat) (S : List Nat)
    (h1 : 1 ≤ cfg.n_layers) (ha : actOK cfg.activation) (hn : normOK cfg.normalization)
    (ho : cfg.output_activation = "linear" ∨ actOK cfg.output_activation)
    (hk : cfg.kernel_size % 2 = 1) (hlen : S.length = convDims cfg)
    (hS : ∀ s ∈ S, 2 ^ cfg.n_layers ∣ s ∧ cfg.kernel_size / 2 < s / 2 ^ cfg.n_layers)
    (hdc : cfg.deconv = false) (hbad : ¬ interpOK cfg) :
    Unet.init cfg = Except.ok (mkModel cfg) ∧
    (mkModel cfg).forward ⟨B, 1, S⟩ =
      Except.error (UErr.interpError cfg.interp_mode) := by
  refine ⟨init_ok_of cfg ha hn ho, ?_⟩
  have hS0 := margin_pos hS
  have hpos0 : ∀ d ∈ S, 1 ≤ d := fun s hs => (hS0 s hs).1
  have hstart : (mkModel cfg).start.apply ⟨B, 1, S⟩ = Except.ok ⟨B, lc cfg 1, S⟩ := by
    show (mkDbl cfg 1 (lc cfg 0) (lc cfg 1) cfg.kernel_size cfg.kernel_size).apply _ = _
    exact apply_mkDbl cfg 1 (lc cfg 0) (lc cfg 1) _ _ hk hk _ hlen rfl
      (margin_base hS) (margin_base hS)
  have hdown0 : (mkModel cfg).down ⟨B, lc cfg 1, S⟩ 0 =
      Except.ok ⟨B, lc cfg 1, shapeAt S 1⟩ := by
    have h := down_step cfg B S hk hlen hS 0 (by omega) (lc cfg 1) rfl
    rw [shapeAt_zero] at h
    exact h
  have hdl : (mkModel cfg).down_layers =
      (List.range' 1 (cfg.n_layers - 1)).map (dlAt cfg) := rfl
  have hloop := downLoop_spec cfg B S hk hlen hS (cfg.n_layers - 1) 1 (by omega)
    (by omega) [TOp.opStart, TOp.opDown 0]
  have e1 : (List.range 1).map (doutT cfg B S) = [(⟨B, lc cfg 1, S⟩ : Tensor)] := by
    rw [show List.range 1 = [0] from rfl]
    simp [doutT, shapeAt_zero]
  have eL : 1 + (cfg.n_layers - 1) = cfg.n_layers := by omega
  rw [e1, eL] at hloop
  have hbridge : (mkModel cfg).bridge.apply
      ⟨B, lc cfg cfg.n_layers, shapeAt S cfg.n_layers⟩ =
      Except.ok ⟨B, lc cfg (cfg.n_layers + 1), shapeAt S cfg.n_layers⟩ := by
    show (mkDbl cfg (lc cfg cfg.n_layers) (lc cfg cfg.n_layers)
      (lc cfg (cfg.n_layers + 1)) cfg.kernel_size cfg.kernel_size).apply _ = _
    exact apply_mkDbl cfg (lc cfg cfg.n_layers) (lc cfg cfg.n_layers)
      (lc cfg (cfg.n_layers + 1)) _ _ hk hk _ (by rw [shapeAt_length, hlen]) rfl
      (shapeAt_margin cfg.n_layers (le_refl _) hS)
      (shapeAt_margin cfg.n_layers (le_refl _) hS)
  have hlast : ((List.range cfg.n_layers).map (doutT cfg B S)).getLast? =
      some (doutT cfg B S (cfg.n_layers - 1)) := by
    have hr : List.range cfg.n_layers =
        List.range (cfg.n_layers - 1) ++ [cfg.n_layers - 1] := by
      rw [← List.range_succ]
      congr 1
      omega
    rw [hr, List.map_append]
    exact List.getLast?_concat _
  have hup_err : (mkModel cfg).up ⟨B, lc cfg (cfg.n_layers + 1), shapeAt S cfg.n_layers⟩
      (doutT cfg B S (cfg.n_layers - 1)).spatial 0 =
      Except.error (UErr.interpError cfg.interp_mode) := by
    unfold UnetModel.up
    rw [if_pos (by simp [mkModel, hdc])]
    show interpolate cfg.interp_mode _ _ = _
    unfold interpolate
    rw [if_neg ?hc]
    case hc =>
      intro hcond
      have hlen3 : (shapeAt S cfg.n_layers).length = convDims cfg := by
        rw [shapeAt_length, hlen]
      rcases hcond with h | ⟨hb, hl⟩ | ⟨ht, hl⟩
      · exact hbad (Or.inl h)
      · refine hbad (Or.inr (Or.inl ⟨hb, ?_⟩))
        rw [hlen3] at hl
        unfold convDims at hl
        cases h3 : cfg.is_3d
        · rfl
        · rw [h3] at hl
          simp at hl
      · refine hbad (Or.inr (Or.inr ⟨ht, ?_⟩))
        rw [hlen3] at hl
        unfold convDims at hl
        cases h3 : cfg.is_3d
        · rw [h3] at hl
          simp at hl
        · rfl
  simp only [UnetModel.forward, hstart, except_bind_ok, hdown0, hdl, hloop, hbridge,
    hlast, hup_err, except_bind_error]

/-- C3 witness at a concrete configuration and input. -/
theorem C3_interp_mode_error_witness :
    Unet.init cfgBadInterp = Except.ok (mkModel cfgBadInterp) ∧
    (mkModel cfgBadInterp).forward ⟨1, 1, [8, 8]⟩ =
      Except.error (UErr.interpError cfgBadInterp.interp_mode) :=
  C3_interp_mode_error_at_forward cfgBadInterp 1 [8, 8] (by decide) (by decide)
    (by decide) (by decide) (by decide) (by decide) (by decide) (by decide)
    (by decide)

end Synthnn
